import Mathlib

/-!
Shallow embedding of the mnemo-search core (src/mnemo/v1):
the vector-index engine (`embedding_and_save.py`, `search_files.py`,
`app_funcs.py`), the summarization pipeline (`extract_and_summarize.py`),
and the text extraction utilities (`parse_doc_utils.py`, `parse_ppt.py`).

Machine floats are modelled by the type `FP` (a rational value, NaN, or a
signed infinity); the md5-based hashes and the sentence-transformer encoder
are deterministic external functions and enter as explicit parameters of an
`EngineEnv` record; the three on-disk artifacts are an explicit `DiskState`
record threaded through the functions; Python exceptions (assertion
failures, uncaught errors) are `Except.error`.
-/

deriving instance DecidableEq for Except

namespace Mnemo

/-- Model of a machine floating-point component: a finite rational, NaN, or
a signed infinity. -/
inductive FP where
  | nan : FP
  | inf : FP
  | ninf : FP
  | fin : ℚ → FP
deriving DecidableEq, Repr

/-- `np.isnan` on one component. -/
def FP.isNaN : FP → Bool
  | FP.nan => true
  | _ => false

/-- `np.isclose(x, 0)` with numpy's default tolerances: for a finite value
`|x - 0| ≤ atol + rtol * |0| = 1e-8`, stated on the reduced fraction as
`|num| * 10^8 ≤ den` (equivalent, since `den > 0`); NaN and infinities are
never close to zero. -/
def FP.isCloseZero : FP → Bool
  | FP.fin q => decide (q.num.natAbs * 100000000 ≤ q.den)
  | _ => false

/-- `np.any(np.isnan(v))` for a vector. -/
def vec_has_nan (v : List FP) : Bool := v.any FP.isNaN

/-- `np.allclose(v, 0)` for a vector. -/
def vec_allclose_zero (v : List FP) : Bool := v.all FP.isCloseZero

/-- One document's metadata record (`doc_metadata_list` entry):
file name, full path, keyword list and summary. -/
structure DocMeta where
  file_name : String
  file_path : String
  keywords : List String
  summary : String
deriving DecidableEq, Repr, Inhabited

/-- Deterministic external parameters of the engine: the embedding model
name and output dimension, the encoder (`embedding_model.encode` with the
fixed parameters `normalize_embeddings=True, batch_size=32`, applied
text-by-text), and the two md5 derivations, which are abstracted here as
function parameters: `fpHash s` models `hashlib.md5(s.encode()).hexdigest()[:8]`
and `docId p` models `int(hashlib.md5(p.encode('utf-8')).hexdigest()[:8], 16)`
(`compute_document_id`). -/
structure EngineEnv where
  modelName : String
  dim : Nat
  encode : String → List FP
  fpHash : String → String
  docId : String → Nat

/-- `get_model_fingerprint`: md5-hash (abstracted as `env.fpHash`) of
`f"{embedding_model_name}_{dim}_normalize_True"`. -/
def get_model_fingerprint (env : EngineEnv) : String :=
  env.fpHash (env.modelName ++ "_" ++ toString env.dim ++ "_normalize_True")

/-- `compute_document_id`: md5-derived 32-bit id of the file path
(abstracted as `env.docId`). -/
def compute_document_id (env : EngineEnv) (file_path : String) : Nat :=
  env.docId file_path

/-- Python `str.strip()` on a character list: drop leading and trailing
whitespace. -/
def pyStrip (l : List Char) : List Char :=
  ((l.dropWhile Char.isWhitespace).reverse.dropWhile Char.isWhitespace).reverse

/-- Python `str.strip()` on a string. -/
def pyStripStr (s : String) : String :=
  String.mk (pyStrip s.data)

/-- Python `str.split('.')` on a character list: split at every dot. -/
def pySplitDot : List Char → List (List Char)
  | [] => [[]]
  | c :: rest =>
    if c = '.' then [] :: pySplitDot rest
    else
      match pySplitDot rest with
      | h :: t => (c :: h) :: t
      | [] => [[c]]

/-- `build_text_for_embedding`: clean the keywords (strip, drop empties),
keep at most 5, and return
`f"passage: {file_name.split('.')[0]} - {', '.join(keywords)} - {summary}"`. -/
def build_text_for_embedding (md : DocMeta) : String :=
  let keywords := (md.keywords.map pyStripStr).filter (fun kw => kw ≠ "")
  let keywords := keywords.take (Nat.min keywords.length 5)
  let keywords_str := if keywords = [] then "" else String.intercalate ", " keywords
  let file_name_str := String.mk ((pySplitDot md.file_name.data).headD [])
  "passage: " ++ file_name_str ++ " - " ++ keywords_str ++ " - " ++ md.summary

/-- `encode_texts_lst`: assert the batch is nonempty, encode every text,
and drop every vector that has a NaN component or is numerically all-zero,
keeping the surviving vectors together with their input positions; returns
`none` (Python's `(None, None)`) when nothing survives. -/
def encode_texts_lst (texts : List String) (encode : String → List FP) :
    Except String (Option (List (List FP) × List Nat)) :=
  if texts.length = 0 then Except.error "assert failed: input texts list cannot be empty." else
  let vectors := texts.map encode
  let valid := vectors.enum.filter (fun p => !(vec_has_nan p.2 || vec_allclose_zero p.2))
  if valid.isEmpty then Except.ok none
  else Except.ok (some (valid.map Prod.snd, valid.map Prod.fst))

/-- The three persisted artifacts owned by the engine.  `none` means the
file does not exist on disk.  The faiss `IndexIDMap2` is its id/vector
pairs in insertion order (`ntotal` = length); the metadata store is the
JSON object as (string key, record) pairs in insertion order; the
fingerprint file is `some (some fp)` for `{"fingerprint": fp}` and
`some none` for a JSON value without a `"fingerprint"` entry. -/
structure DiskState where
  faissFile : Option (List (Nat × List FP))
  metadataFile : Option (List (String × DocMeta))
  fingerprintFile : Option (Option String)
deriving DecidableEq, Repr

/-- `load_index`: return the stored index and the model-consistency tag:
`"changed"` iff the loaded fingerprint JSON carries a `"fingerprint"` entry
different from the current model's fingerprint, else `"consisten" ++ "t"`. -/
def load_index (env : EngineEnv) (idx : List (Nat × List FP)) (fpj : Option String) :
    List (Nat × List FP) × String :=
  match fpj with
  | some stored =>
    if stored ≠ get_model_fingerprint env then (idx, "changed") else (idx, "consistent")
  | none => (idx, "consistent")

/-- Python `d[k] = v` on a dict represented as an ordered key/value list:
replace in place when the key is present, append otherwise. -/
def pyDictSet {α β : Type} [DecidableEq α] (d : List (α × β)) (k : α) (v : β) :
    List (α × β) :=
  if k ∈ d.map Prod.fst then d.map (fun p => if p.1 = k then (k, v) else p)
  else d ++ [(k, v)]

/-- Python `a | b` on dicts: insert every entry of `b` into `a` in order. -/
def pyDictUnion {α β : Type} [DecidableEq α] (a b : List (α × β)) : List (α × β) :=
  b.foldl (fun acc p => pyDictSet acc p.1 p.2) a

/-- Python `d[k]` lookup. -/
def pyDictGet? {α β : Type} [DecidableEq α] (d : List (α × β)) (k : α) : Option β :=
  (d.find? (fun p => decide (p.1 = k))).map Prod.snd

/-- Python `int(k)` on the engine-written decimal string keys: parse a
nonempty all-digit string; `none` models `int()` raising `ValueError`. -/
def pyParseNat (s : String) : Option Nat :=
  let l := s.data
  if l ≠ [] ∧ l.all Char.isDigit then
    some (l.foldl (fun acc c => acc * 10 + (c.toNat - 48)) 0)
  else none

/-- `set(int(k) for k in existing_metadata_dict.keys())`: parse every key as
a decimal integer (`none` models `int()` raising `ValueError`). -/
def parseExistingIds (meta0 : List (String × DocMeta)) : Option (List Nat) :=
  meta0.mapM (fun p => pyParseNat p.1)

/-- The per-document loop of `index_files`: for each pending document derive
its id, assert it is not already indexed, build its canonical embedding
text, and accumulate texts, ids and the id-keyed metadata dict in order. -/
def processDocsAux (env : EngineEnv) (existing_ids : List Nat) :
    List DocMeta → List String → List Nat → List (Nat × DocMeta) →
    Except String (List String × List Nat × List (Nat × DocMeta))
  | [], ts, ids, md => Except.ok (ts, ids, md)
  | d :: rest, ts, ids, md =>
    let doc_id := env.docId d.file_path
    if doc_id ∈ existing_ids then
      Except.error "assert failed: Document ID already exists in index."
    else
      processDocsAux env existing_ids rest (ts ++ [build_text_for_embedding d])
        (ids ++ [doc_id]) (pyDictSet md doc_id d)

/-- Entry point of the per-document loop with empty accumulators. -/
def processDocs (env : EngineEnv) (existing_ids : List Nat) (docs : List DocMeta) :
    Except String (List String × List Nat × List (Nat × DocMeta)) :=
  processDocsAux env existing_ids docs [] [] []

/-- The shared tail of `index_files` after the store has been loaded (or
freshly created): process the documents, batch-encode, filter degenerate
vectors, add survivors to the index under their ids, merge metadata
(string-keyed), check the count invariant and persist all three artifacts. -/
def index_files_add (docs : List DocMeta) (env : EngineEnv) (st : DiskState)
    (faiss0 : List (Nat × List FP)) (meta0 : List (String × DocMeta))
    (existing_ids : List Nat) : Except String (String × List String × DiskState) :=
  match processDocs env existing_ids docs with
  | Except.error e => Except.error e
  | Except.ok (new_texts, new_doc_ids, new_meta) =>
    if new_texts.length ≠ docs.length then
      Except.error "assert failed: new embedding texts list length must match document metadata list length."
    else
      match encode_texts_lst new_texts env.encode with
      | Except.error e => Except.error e
      | Except.ok none => Except.ok ("no_valid_vectors_error", docs.map (fun d => d.file_name), st)
      | Except.ok (some (valid_vectors, valid_indices)) =>
        let invalid_files :=
          if docs.length > valid_vectors.length then
            ((List.range docs.length).filter (fun i => !(valid_indices.contains i))).map
              (fun i => (docs.getD i default).file_name)
          else []
        let valid_doc_ids := valid_indices.map (fun i => new_doc_ids.getD i 0)
        match valid_doc_ids.mapM (fun id => (pyDictGet? new_meta id).map (fun v => (id, v))) with
        | none => Except.error "KeyError"
        | some id_meta_pairs =>
          let valid_metadata_dict :=
            id_meta_pairs.foldl (fun acc p => pyDictSet acc (toString p.1) p.2)
              ([] : List (String × DocMeta))
          let faiss1 := faiss0 ++ valid_doc_ids.zip valid_vectors
          let combined_metadata_dict := pyDictUnion meta0 valid_metadata_dict
          if faiss1.length ≠ combined_metadata_dict.length then
            Except.error "assert failed: FAISS index and metadata length mismatch."
          else
            Except.ok ("valid_output", invalid_files,
              ⟨some faiss1, some combined_metadata_dict,
               some (some (get_model_fingerprint env))⟩)

/-- `index_files`: assert a nonempty batch; when all three artifacts exist,
load them and return `model_changed_error` (with every input file name
invalid, no mutation) on a fingerprint mismatch; otherwise start from a
fresh empty store; then run the shared add/encode/persist tail. -/
def index_files (docs : List DocMeta) (env : EngineEnv) (st : DiskState) :
    Except String (String × List String × DiskState) :=
  if docs.length = 0 then Except.error "assert failed: document metadata list cannot be empty." else
  match st.faissFile, st.metadataFile, st.fingerprintFile with
  | some idx0, some meta0, some fpj =>
    let li := load_index env idx0 fpj
    if li.2 = "changed" then
      Except.ok ("model_changed_error", docs.map (fun d => d.file_name), st)
    else
      match parseExistingIds meta0 with
      | none => Except.error "ValueError: invalid literal for int()"
      | some ids => index_files_add docs env st li.1 meta0 ids
  | _, _, _ => index_files_add docs env st [] [] []

/-- `app_funcs.search_files`: the text handed to the embedding encoder is
the stripped query with the fixed query-side prefix prepended
(`query = "query: " + query.strip()`). -/
def search_files_query_text (query : String) : String :=
  "query: " ++ pyStripStr query

/-- The query vector computed inside `search_by_embedding` and handed to
`index.search`: the encoder applied (with the fixed parameters) to the
query string it receives. -/
def search_by_embedding_query_vec (env : EngineEnv) (query : String) : List FP :=
  env.encode query

/-- The query vector the top-k inner-product search runs on when a search
is issued through `search_files`. -/
def search_files_query_vec (env : EngineEnv) (query : String) : List FP :=
  search_by_embedding_query_vec env (search_files_query_text query)

/-- The vector the engine encodes for one document. -/
def docVec (env : EngineEnv) (d : DocMeta) : List FP :=
  env.encode (build_text_for_embedding d)

/-- Whether one document's encoded vector is degenerate (NaN component or
numerically all-zero) and hence dropped by `encode_texts_lst`. -/
def docBad (env : EngineEnv) (d : DocMeta) : Bool :=
  vec_has_nan (docVec env d) || vec_allclose_zero (docVec env d)

/-! ### Helper lemmas about Python-dict and index bookkeeping -/

theorem pyDictSet_fresh {α β : Type} [DecidableEq α] (d : List (α × β)) (k : α) (v : β)
    (h : k ∉ d.map Prod.fst) : pyDictSet d k v = d ++ [(k, v)] := by
  simp [pyDictSet, h]

theorem foldl_pyDictSet_append {α β : Type} [DecidableEq α] :
    ∀ (l d : List (α × β)), (∀ p ∈ l, p.1 ∉ d.map Prod.fst) → (l.map Prod.fst).Nodup →
      l.foldl (fun acc p => pyDictSet acc p.1 p.2) d = d ++ l
  | [], d, _, _ => by simp
  | p :: rest, d, hfresh, hnd => by
    have h1 : p.1 ∉ d.map Prod.fst := hfresh p (by simp)
    have hnd2 : (rest.map Prod.fst).Nodup := (List.nodup_cons.mp (by simpa using hnd)).2
    have hfresh2 : ∀ q ∈ rest, q.1 ∉ (d ++ [p]).map Prod.fst := by
      intro q hq
      simp only [List.map_append, List.mem_append, List.map_cons, List.map_nil,
        List.mem_singleton]
      rintro (hmem | hp1)
      · exact hfresh q (by simp [hq]) hmem
      · have hp : p.1 ∈ rest.map Prod.fst := by
          simpa [hp1] using List.mem_map_of_mem Prod.fst hq
        exact (List.nodup_cons.mp (by simpa using hnd)).1 hp
    calc (p :: rest).foldl (fun acc q => pyDictSet acc q.1 q.2) d
        = rest.foldl (fun acc q => pyDictSet acc q.1 q.2) (d ++ [p]) := by
          simp [List.foldl_cons, pyDictSet_fresh d p.1 p.2 h1]
      _ = (d ++ [p]) ++ rest := foldl_pyDictSet_append rest (d ++ [p]) hfresh2 hnd2
      _ = d ++ (p :: rest) := by simp

theorem pyDictUnion_fresh {α β : Type} [DecidableEq α] (a b : List (α × β))
    (hfresh : ∀ p ∈ b, p.1 ∉ a.map Prod.fst) (hnd : (b.map Prod.fst).Nodup) :
    pyDictUnion a b = a ++ b :=
  foldl_pyDictSet_append b a hfresh hnd

theorem pyDictGet_map_pairs {α β : Type} [DecidableEq β] (f : α → β) :
    ∀ (l : List α), (l.map f).Nodup → ∀ a ∈ l,
      pyDictGet? (l.map (fun x => (f x, x))) (f a) = some a
  | [], _, a, ha => by simp at ha
  | x :: rest, hnd, a, ha => by
    by_cases hx : f x = f a
    · have hax : a = x := by
        rcases List.mem_cons.mp ha with h | h
        · exact h
        · exact absurd (hx ▸ List.mem_map_of_mem f h)
            (List.nodup_cons.mp (by simpa using hnd)).1
      simp [pyDictGet?, List.find?, hx, hax]
    · have ha2 : a ∈ rest := by
        rcases List.mem_cons.mp ha with h | h
        · exact absurd (congrArg f h.symm) hx
        · exact h
      have := pyDictGet_map_pairs f rest (List.nodup_cons.mp (by simpa using hnd)).2 a ha2
      simpa [pyDictGet?, List.find?, hx] using this

theorem enumFrom_filter_snd {α : Type} (q : α → Bool) :
    ∀ (l : List α) (n : Nat),
      ((List.enumFrom n l).filter (fun p => q p.2)).map Prod.snd = l.filter q
  | [], _ => by simp
  | a :: rest, n => by
    by_cases ha : q a
    · rw [List.enumFrom_cons, List.filter_cons_of_pos (by simpa using ha),
        List.filter_cons_of_pos ha, List.map_cons, enumFrom_filter_snd q rest (n + 1)]
    · rw [List.enumFrom_cons, List.filter_cons_of_neg (by simpa using ha),
        List.filter_cons_of_neg ha, enumFrom_filter_snd q rest (n + 1)]

theorem enumFrom_filter_fst_getD {α β : Type} (q : α → Bool) (f : α → β) (d0 : β) :
    ∀ (l : List α) (pre : List β) (n : Nat), n = pre.length →
      (((List.enumFrom n l).filter (fun p => q p.2)).map Prod.fst).map
          (fun i => (pre ++ l.map f).getD i d0)
        = (l.filter q).map f
  | [], pre, n, h => by simp
  | a :: rest, pre, n, h => by
    have hget : (pre ++ (a :: rest).map f).getD n d0 = f a := by
      rw [h, List.getD_append_right pre _ d0 pre.length le_rfl, Nat.sub_self]
      rfl
    have hstep : pre ++ (a :: rest).map f = (pre ++ [f a]) ++ rest.map f := by simp
    have hlen : n + 1 = (pre ++ [f a]).length := by simp [h]
    have hfun : (fun i => (pre ++ (a :: rest).map f).getD i d0)
        = (fun i => ((pre ++ [f a]) ++ rest.map f).getD i d0) := by
      funext i
      rw [hstep]
    by_cases ha : q a
    · rw [List.enumFrom_cons, List.filter_cons_of_pos (by simpa using ha),
        List.filter_cons_of_pos ha, hfun]
      rw [show ((n, a) :: (List.enumFrom (n + 1) rest).filter (fun p => q p.2)).map Prod.fst
            = n :: ((List.enumFrom (n + 1) rest).filter (fun p => q p.2)).map Prod.fst from rfl]
      rw [List.map_cons, List.map_cons,
        enumFrom_filter_fst_getD q f d0 rest (pre ++ [f a]) (n + 1) hlen]
      rw [← hstep, hget]
    · rw [List.enumFrom_cons, List.filter_cons_of_neg (by simpa using ha),
        List.filter_cons_of_neg ha, hfun,
        enumFrom_filter_fst_getD q f d0 rest (pre ++ [f a]) (n + 1) hlen]

theorem enumFrom_filter_fst_mem {α : Type} [Inhabited α] (q : α → Bool) :
    ∀ (l : List α) (n i : Nat),
      (i ∈ ((List.enumFrom n l).filter (fun p => q p.2)).map Prod.fst) ↔
        (n ≤ i ∧ i - n < l.length ∧ q (l.getD (i - n) default) = true)
  | [], n, i => by simp
  | a :: rest, n, i => by
    have ih := enumFrom_filter_fst_mem q rest (n + 1) i
    by_cases ha : q a
    · rw [List.enumFrom_cons, List.filter_cons_of_pos (by simpa using ha), List.map_cons,
        List.mem_cons, ih]
      constructor
      · rintro (hin | ⟨h1, h2, h3⟩)
        · subst hin
          refine ⟨le_rfl, by simp, ?_⟩
          simpa using ha
        · refine ⟨by omega, by simp only [List.length_cons]; omega, ?_⟩
          rw [show i - n = (i - (n + 1)) + 1 by omega, List.getD_cons_succ]
          exact h3
      · rintro ⟨h1, h2, h3⟩
        by_cases hin : i = n
        · exact Or.inl hin
        · refine Or.inr ⟨by omega, by simp only [List.length_cons] at h2; omega, ?_⟩
          rw [show i - n = (i - (n + 1)) + 1 by omega, List.getD_cons_succ] at h3
          exact h3
    · rw [List.enumFrom_cons, List.filter_cons_of_neg (by simpa using ha), ih]
      constructor
      · rintro ⟨h1, h2, h3⟩
        refine ⟨by omega, by simp only [List.length_cons]; omega, ?_⟩
        rw [show i - n = (i - (n + 1)) + 1 by omega, List.getD_cons_succ]
        exact h3
      · rintro ⟨h1, h2, h3⟩
        by_cases hin : i = n
        · subst hin
          rw [Nat.sub_self, List.getD_cons_zero] at h3
          exact absurd h3 (by simpa using ha)
        · refine ⟨by omega, by simp only [List.length_cons] at h2; omega, ?_⟩
          rw [show i - n = (i - (n + 1)) + 1 by omega, List.getD_cons_succ] at h3
          exact h3

theorem getD_of_drop {α : Type} [Inhabited α] :
    ∀ (full : List α) (n : Nat) (a : α) (rest : List α),
      full.drop n = a :: rest → full.getD n default = a
  | [], n, a, rest, h => by simp at h
  | x :: xs, 0, a, rest, h => by
    simp only [List.drop_zero] at h
    cases h
    simp
  | x :: xs, n + 1, a, rest, h => by
    rw [List.drop_succ_cons] at h
    simpa using getD_of_drop xs n a rest h

theorem drop_succ_of_drop {α : Type} (full : List α) (n : Nat) (a : α) (rest : List α)
    (h : full.drop n = a :: rest) : full.drop (n + 1) = rest := by
  rw [← List.drop_drop, h]
  rfl

theorem range'_filter_invalid {α β : Type} [Inhabited α] (bad : α → Bool) (g : α → β)
    (full : List α) (vidx : List Nat)
    (hc : ∀ i, i ∈ vidx ↔ (i < full.length ∧ bad (full.getD i default) = false)) :
    ∀ (l : List α) (n : Nat), full.drop n = l →
      ((List.range' n l.length).filter (fun i => !(vidx.contains i))).map
          (fun i => g (full.getD i default))
        = (l.filter bad).map g
  | [], n, _ => by simp
  | a :: rest, n, hdrop => by
    have hna : full.getD n default = a := getD_of_drop full n a rest hdrop
    have hlt : n < full.length := by
      by_contra hcon
      rw [List.drop_eq_nil_of_le (by omega)] at hdrop
      exact List.noConfusion hdrop
    have hmem : (n ∈ vidx) ↔ (bad a = false) := by
      rw [hc n, hna]
      exact ⟨fun h => h.2, fun h => ⟨hlt, h⟩⟩
    have ih := range'_filter_invalid bad g full vidx hc rest (n + 1)
      (drop_succ_of_drop full n a rest hdrop)
    rw [List.length_cons, List.range'_succ]
    by_cases hb : bad a
    · have hnot : n ∉ vidx := by
        rw [hmem]
        simp [hb]
      rw [List.filter_cons_of_pos (by simp [hnot]),
        List.filter_cons_of_pos hb, List.map_cons, hna, ih, List.map_cons]
    · have hyes : n ∈ vidx := by
        rw [hmem]
        simpa using hb
      rw [List.filter_cons_of_neg (by simp [hyes]),
        List.filter_cons_of_neg hb, ih]

theorem processDocsAux_ok (env : EngineEnv) (exIds : List Nat) :
    ∀ (docs : List DocMeta) (ts : List String) (ids : List Nat) (md : List (Nat × DocMeta)),
      (∀ d ∈ docs, env.docId d.file_path ∉ exIds) →
      processDocsAux env exIds docs ts ids md =
        Except.ok (ts ++ docs.map build_text_for_embedding,
          ids ++ docs.map (fun d => env.docId d.file_path),
          docs.foldl (fun acc d => pyDictSet acc (env.docId d.file_path) d) md)
  | [], ts, ids, md, _ => by simp [processDocsAux]
  | d :: rest, ts, ids, md, hfresh => by
    have hd : env.docId d.file_path ∉ exIds := hfresh d (by simp)
    have ih := processDocsAux_ok env exIds rest (ts ++ [build_text_for_embedding d])
      (ids ++ [env.docId d.file_path]) (pyDictSet md (env.docId d.file_path) d)
      (fun x hx => hfresh x (by simp [hx]))
    rw [processDocsAux, if_neg hd, ih]
    simp

theorem encode_texts_lst_docs (env : EngineEnv) (docs : List DocMeta) (hne : docs ≠ []) :
    encode_texts_lst (docs.map build_text_for_embedding) env.encode =
      if (docs.filter (fun d => !docBad env d)).isEmpty then Except.ok none
      else Except.ok (some ((docs.filter (fun d => !docBad env d)).map (docVec env),
        ((docs.enum).filter (fun p => !docBad env p.2)).map Prod.fst)) := by
  have hmap : (docs.map build_text_for_embedding).map env.encode = docs.map (docVec env) := by
    rw [List.map_map]
    rfl
  have henum : (docs.map (docVec env)).enum.filter
        (fun p => !(vec_has_nan p.2 || vec_allclose_zero p.2))
      = (docs.enum.filter (fun p => !docBad env p.2)).map (Prod.map id (docVec env)) := by
    rw [List.enum_map, List.filter_map]
    rfl
  have hsnd : (docs.enum.filter (fun p => !docBad env p.2)).map Prod.snd
      = docs.filter (fun d => !docBad env d) :=
    enumFrom_filter_snd (fun d => !docBad env d) docs 0
  unfold encode_texts_lst
  rw [if_neg (by simp [List.length_eq_zero, hne])]
  simp only [hmap, henum]
  by_cases hemp : List.filter (fun d => !docBad env d) docs = []
  · have hef : List.filter (fun p => !docBad env p.2) docs.enum = [] := by
      have h0 := hsnd
      rw [hemp] at h0
      exact List.map_eq_nil_iff.mp h0
    simp [hef, hemp]
  · have hef : List.filter (fun p => !docBad env p.2) docs.enum ≠ [] := by
      intro h0
      apply hemp
      rw [← hsnd, h0]
      rfl
    rw [if_neg (by simp [List.isEmpty_iff, List.map_eq_nil_iff, hef]),
      if_neg (by simp [List.isEmpty_iff, hemp])]
    rw [List.map_map, List.map_map]
    rw [show Prod.snd ∘ Prod.map (id : Nat → Nat) (docVec env) = docVec env ∘ Prod.snd from rfl]
    rw [show Prod.fst ∘ Prod.map (id : Nat → Nat) (docVec env) = Prod.fst from rfl]
    rw [← List.map_map, hsnd]

theorem foldl_pyDictSet_keyed {α β γ : Type} [DecidableEq β] (g : α → β) (h : α → γ) :
    ∀ (l : List α) (d : List (β × γ)),
      (∀ a ∈ l, g a ∉ d.map Prod.fst) → (l.map g).Nodup →
      l.foldl (fun acc a => pyDictSet acc (g a) (h a)) d = d ++ l.map (fun a => (g a, h a))
  | [], d, _, _ => by simp
  | a :: rest, d, hfresh, hnd => by
    have h1 : g a ∉ d.map Prod.fst := hfresh a (by simp)
    have hnd2 : (rest.map g).Nodup := (List.nodup_cons.mp (by simpa using hnd)).2
    have hfresh2 : ∀ x ∈ rest, g x ∉ (d ++ [(g a, h a)]).map Prod.fst := by
      intro x hx
      simp only [List.map_append, List.mem_append, List.map_cons, List.map_nil,
        List.mem_singleton]
      rintro (hmem | hgx)
      · exact hfresh x (by simp [hx]) hmem
      · have hp : g a ∈ rest.map g := by
          simpa [hgx] using List.mem_map_of_mem g hx
        exact (List.nodup_cons.mp (by simpa using hnd)).1 hp
    calc (a :: rest).foldl (fun acc x => pyDictSet acc (g x) (h x)) d
        = rest.foldl (fun acc x => pyDictSet acc (g x) (h x)) (d ++ [(g a, h a)]) := by
          simp [List.foldl_cons, pyDictSet_fresh d (g a) (h a) h1]
      _ = (d ++ [(g a, h a)]) ++ rest.map (fun x => (g x, h x)) :=
          foldl_pyDictSet_keyed g h rest (d ++ [(g a, h a)]) hfresh2 hnd2
      _ = d ++ (a :: rest).map (fun x => (g x, h x)) := by simp

theorem mapM_get_pairs (env : EngineEnv) (new_meta : List (Nat × DocMeta)) :
    ∀ (l : List DocMeta),
      (∀ d ∈ l, pyDictGet? new_meta (env.docId d.file_path) = some d) →
      (l.map (fun d => env.docId d.file_path)).mapM
          (fun i => (pyDictGet? new_meta i).map (fun v => (i, v)))
        = some (l.map (fun d => (env.docId d.file_path, d)))
  | [], _ => rfl
  | d :: rest, h => by
    have hd := h d (by simp)
    have ih := mapM_get_pairs env new_meta rest (fun x hx => h x (by simp [hx]))
    rw [List.map_cons, List.mapM_cons, hd, ih]
    rfl

set_option maxHeartbeats 2000000 in
/-- Full characterization of the add/encode/persist tail of `index_files`
under fresh, collision-free document ids: either no vector survives and the
call reports `no_valid_vectors_error` without mutation, or the surviving
documents are appended to both stores and the call reports `valid_output`
with the degenerate documents' file names. -/
theorem index_files_add_spec (docs : List DocMeta) (env : EngineEnv) (st : DiskState)
    (faiss0 : List (Nat × List FP)) (meta0 : List (String × DocMeta)) (exIds : List Nat)
    (hne : docs ≠ [])
    (hfresh : ∀ d ∈ docs, env.docId d.file_path ∉ exIds)
    (hndN : (docs.map (fun d => env.docId d.file_path)).Nodup)
    (hndS : (docs.map (fun d => toString (env.docId d.file_path))).Nodup)
    (hfreshS : ∀ d ∈ docs, toString (env.docId d.file_path) ∉ meta0.map Prod.fst)
    (hcount : faiss0.length = meta0.length) :
    index_files_add docs env st faiss0 meta0 exIds =
      if (docs.filter (fun d => !docBad env d)).isEmpty then
        Except.ok ("no_valid_vectors_error", docs.map (fun d => d.file_name), st)
      else
        Except.ok ("valid_output", (docs.filter (docBad env)).map (fun d => d.file_name),
          ⟨some (faiss0 ++ (docs.filter (fun d => !docBad env d)).map
              (fun d => (env.docId d.file_path, docVec env d))),
           some (meta0 ++ (docs.filter (fun d => !docBad env d)).map
              (fun d => (toString (env.docId d.file_path), d))),
           some (some (get_model_fingerprint env))⟩) := by
  have hproc : processDocs env exIds docs =
      Except.ok (docs.map build_text_for_embedding,
        docs.map (fun d => env.docId d.file_path),
        docs.map (fun d => (env.docId d.file_path, d))) := by
    have h0 := processDocsAux_ok env exIds docs [] [] [] hfresh
    have hfold : docs.foldl (fun acc d => pyDictSet acc (env.docId d.file_path) d) [] =
        docs.map (fun d => (env.docId d.file_path, d)) := by
      have h1 := foldl_pyDictSet_keyed (fun d => env.docId d.file_path) (fun d => d)
        docs [] (by simp) hndN
      simpa using h1
    rw [processDocs, h0, hfold]
    simp
  have hsubS : List.Sublist
      ((docs.filter (fun d => !docBad env d)).map
        (fun d => toString (env.docId d.file_path)))
      (docs.map (fun d => toString (env.docId d.file_path))) :=
    (List.filter_sublist docs).map _
  have hndS2 : ((docs.filter (fun d => !docBad env d)).map
      (fun d => toString (env.docId d.file_path))).Nodup := hndS.sublist hsubS
  simp only [index_files_add, hproc]
  rw [if_neg (by simp)]
  rw [encode_texts_lst_docs env docs hne]
  by_cases hemp : List.filter (fun d => !docBad env d) docs = []
  · rw [if_pos (by simp [List.isEmpty_iff, hemp]), if_pos (by simp [List.isEmpty_iff, hemp])]
  · rw [if_neg (by simp [List.isEmpty_iff, hemp]), if_neg (by simp [List.isEmpty_iff, hemp])]
    have hvids : (((docs.enum).filter (fun p => !docBad env p.2)).map Prod.fst).map
          (fun i => (docs.map (fun d => env.docId d.file_path)).getD i 0)
        = (docs.filter (fun d => !docBad env d)).map (fun d => env.docId d.file_path) := by
      have h1 := enumFrom_filter_fst_getD (fun d => !docBad env d)
        (fun d => env.docId d.file_path) 0 docs [] 0 rfl
      simpa using h1
    have hc : ∀ i, i ∈ ((docs.enum).filter (fun p => !docBad env p.2)).map Prod.fst ↔
        (i < docs.length ∧ docBad env (docs.getD i default) = false) := by
      intro i
      have h1 := enumFrom_filter_fst_mem (fun d => !docBad env d) docs 0 i
      simpa using h1
    have hinv : (if docs.length > ((docs.filter (fun d => !docBad env d)).map
            (docVec env)).length then
          ((List.range docs.length).filter
              (fun i => !(((docs.enum).filter (fun p => !docBad env p.2)).map
                Prod.fst).contains i)).map (fun i => (docs.getD i default).file_name)
        else [])
        = (docs.filter (docBad env)).map (fun d => d.file_name) := by
      by_cases hbad : docs.filter (docBad env) = []
      · have hall : ∀ d ∈ docs, (!docBad env d) = true := by
          intro d hd
          have h2 := List.filter_eq_nil_iff.mp hbad d hd
          simpa using h2
        have hlen : (docs.filter (fun d => !docBad env d)).length = docs.length :=
          List.filter_length_eq_length.mpr hall
        rw [if_neg (by simp [hlen]), hbad, List.map_nil]
      · have hlt : (docs.filter (fun d => !docBad env d)).length < docs.length := by
          have hle := List.length_filter_le (fun d => !docBad env d) docs
          rcases Nat.lt_or_ge (docs.filter (fun d => !docBad env d)).length docs.length
            with h | h
          · exact h
          · exfalso
            have heq : (docs.filter (fun d => !docBad env d)).length = docs.length := by
              omega
            have hall := List.filter_length_eq_length.mp heq
            apply hbad
            refine List.filter_eq_nil_iff.mpr ?_
            intro d hd
            have h3 := hall d hd
            simp at h3
            simp [h3]
        rw [if_pos (by simpa using hlt)]
        rw [List.range_eq_range']
        generalize hg : (((docs.enum).filter (fun p => !docBad env p.2)).map Prod.fst) = vidx
        have hc2 : ∀ i, i ∈ vidx ↔
            (i < docs.length ∧ docBad env (docs.getD i default) = false) := by
          rw [← hg]
          exact hc
        have h1 := range'_filter_invalid (docBad env) (fun d => d.file_name) docs vidx hc2
          docs 0 (by simp)
        simpa using h1
    have hget : ∀ d ∈ docs.filter (fun d => !docBad env d),
        pyDictGet? (docs.map (fun d => (env.docId d.file_path, d)))
          (env.docId d.file_path) = some d := by
      intro d hd
      exact pyDictGet_map_pairs (fun d => env.docId d.file_path) docs hndN d
        (List.mem_of_mem_filter hd)
    have hpairs : ((docs.filter (fun d => !docBad env d)).map
          (fun d => env.docId d.file_path)).mapM
          (fun i => (pyDictGet? (docs.map (fun d => (env.docId d.file_path, d))) i).map
            (fun v => (i, v)))
        = some ((docs.filter (fun d => !docBad env d)).map
            (fun d => (env.docId d.file_path, d))) :=
      mapM_get_pairs env _ _ hget
    have hvmd : ((docs.filter (fun d => !docBad env d)).map
          (fun d => (env.docId d.file_path, d))).foldl
          (fun acc p => pyDictSet acc (toString p.1) p.2) []
        = (docs.filter (fun d => !docBad env d)).map
            (fun d => (toString (env.docId d.file_path), d)) := by
      have h1 := foldl_pyDictSet_keyed (fun p : Nat × DocMeta => toString p.1) Prod.snd
        ((docs.filter (fun d => !docBad env d)).map (fun d => (env.docId d.file_path, d)))
        [] (by simp) (by simpa [List.map_map] using hndS2)
      simpa [List.map_map] using h1
    have hunion : pyDictUnion meta0 ((docs.filter (fun d => !docBad env d)).map
          (fun d => (toString (env.docId d.file_path), d)))
        = meta0 ++ (docs.filter (fun d => !docBad env d)).map
            (fun d => (toString (env.docId d.file_path), d)) := by
      refine pyDictUnion_fresh meta0 _ ?_ (by simpa [List.map_map] using hndS2)
      intro p hp
      rcases List.mem_map.mp hp with ⟨d, hd, rfl⟩
      exact hfreshS d (List.mem_of_mem_filter hd)
    have hzip : ((docs.filter (fun d => !docBad env d)).map
          (fun d => env.docId d.file_path)).zip
          ((docs.filter (fun d => !docBad env d)).map (docVec env))
        = (docs.filter (fun d => !docBad env d)).map
            (fun d => (env.docId d.file_path, docVec env d)) :=
      List.zip_map' _ _ _
    simp only [hvids, hpairs, hvmd, hunion, hzip, hinv]
    rw [if_neg (by simp [hcount])]

/-- When all three artifacts exist and the stored fingerprint matches (or
the fingerprint JSON has no `"fingerprint"` entry), `index_files` proceeds
with the loaded store and parsed id set. -/
theorem index_files_consistent (docs : List DocMeta) (env : EngineEnv) (st : DiskState)
    (idx0 : List (Nat × List FP)) (meta0 : List (String × DocMeta))
    (fpj : Option String) (exIds : List Nat)
    (hne : docs ≠ [])
    (hfa : st.faissFile = some idx0) (hme : st.metadataFile = some meta0)
    (hfp : st.fingerprintFile = some fpj)
    (hcons : ∀ s, fpj = some s → s = get_model_fingerprint env)
    (hkeys : parseExistingIds meta0 = some exIds) :
    index_files docs env st = index_files_add docs env st idx0 meta0 exIds := by
  unfold index_files
  rw [hfa, hme, hfp, if_neg (by simp [List.length_eq_zero, hne])]
  cases fpj with
  | none => simp [load_index, hkeys]
  | some s =>
    have hs := hcons s rfl
    simp [load_index, hs, hkeys]

/-- When any of the three artifacts is missing, `index_files` starts from a
fresh empty store and empty id set (fingerprint check skipped). -/
theorem index_files_fresh (docs : List DocMeta) (env : EngineEnv) (st : DiskState)
    (hne : docs ≠ [])
    (hmiss : st.faissFile = none ∨ st.metadataFile = none ∨ st.fingerprintFile = none) :
    index_files docs env st = index_files_add docs env st [] [] [] := by
  unfold index_files
  rw [if_neg (by simp [List.length_eq_zero, hne])]
  rcases st with ⟨f, m, g⟩
  rcases f with _ | idx0 <;> rcases m with _ | meta0 <;> rcases g with _ | fpj <;> simp_all

/-- C1: if all three persisted artifacts exist and the stored model
fingerprint differs from the fingerprint of the currently active embedding
model, then `index_files` returns status `model_changed_error` with every
input file name in the invalid list and performs no mutation: the returned
disk state is exactly the input state, so neither the vector store nor the
metadata store nor the fingerprint record is written and the store's entry
count is unchanged. -/
theorem index_files_model_changed (docs : List DocMeta) (env : EngineEnv) (st : DiskState)
    (idx0 : List (Nat × List FP)) (meta0 : List (String × DocMeta)) (stored : String)
    (hne : docs ≠ [])
    (hfa : st.faissFile = some idx0) (hme : st.metadataFile = some meta0)
    (hfp : st.fingerprintFile = some (some stored))
    (hdiff : stored ≠ get_model_fingerprint env) :
    index_files docs env st =
      Except.ok ("model_changed_error", docs.map (fun d => d.file_name), st) := by
  unfold index_files
  rw [hfa, hme, hfp]
  simp [load_index, hdiff, List.length_eq_zero, hne]

/-- Witness for C1 at a concrete mismatched store. -/
theorem index_files_model_changed_witness :
    (([⟨"b.pdf", "/x/b.pdf", ["k"], "s"⟩] : List DocMeta) ≠ []) ∧
    ("OLD" ≠ get_model_fingerprint ⟨"m", 2, fun _ => [FP.fin 1], fun s => s, fun p => p.length⟩) ∧
    index_files [⟨"b.pdf", "/x/b.pdf", ["k"], "s"⟩]
        ⟨"m", 2, fun _ => [FP.fin 1], fun s => s, fun p => p.length⟩
        ⟨some [(7, [FP.fin 1])], some [("7", ⟨"a.pdf", "/x/a.pdf", ["k"], "s"⟩)],
         some (some "OLD")⟩ =
      Except.ok ("model_changed_error", ["b.pdf"],
        ⟨some [(7, [FP.fin 1])], some [("7", ⟨"a.pdf", "/x/a.pdf", ["k"], "s"⟩)],
         some (some "OLD")⟩) :=
  ⟨by decide, by decide,
   index_files_model_changed _ _ _ _ _ _ (by decide) rfl rfl rfl (by decide)⟩

/-- C2: for a successful incremental `index_files` batch (status
`valid_output`) over documents whose paths are disjoint from those already
indexed (collision-free fresh ids), the resulting store contains every
previously indexed entry with its metadata unchanged (`meta0` is a prefix
of the merged mapping, entrywise unchanged) plus exactly one entry per
surviving new document, and the vector store's total vector count equals
the merged metadata mapping's entry count. -/
theorem index_files_incremental (docs : List DocMeta) (env : EngineEnv) (st : DiskState)
    (idx0 : List (Nat × List FP)) (meta0 : List (String × DocMeta))
    (fpj : Option String) (exIds : List Nat)
    (hne : docs ≠ [])
    (hfa : st.faissFile = some idx0) (hme : st.metadataFile = some meta0)
    (hfp : st.fingerprintFile = some fpj)
    (hcons : ∀ s, fpj = some s → s = get_model_fingerprint env)
    (hkeys : parseExistingIds meta0 = some exIds)
    (hfresh : ∀ d ∈ docs, env.docId d.file_path ∉ exIds)
    (hndN : (docs.map (fun d => env.docId d.file_path)).Nodup)
    (hndS : (docs.map (fun d => toString (env.docId d.file_path))).Nodup)
    (hfreshS : ∀ d ∈ docs, toString (env.docId d.file_path) ∉ meta0.map Prod.fst)
    (hcount : idx0.length = meta0.length)
    (hsur : docs.filter (fun d => !docBad env d) ≠ []) :
    index_files docs env st =
      Except.ok ("valid_output", (docs.filter (docBad env)).map (fun d => d.file_name),
        ⟨some (idx0 ++ (docs.filter (fun d => !docBad env d)).map
            (fun d => (env.docId d.file_path, docVec env d))),
         some (meta0 ++ (docs.filter (fun d => !docBad env d)).map
            (fun d => (toString (env.docId d.file_path), d))),
         some (some (get_model_fingerprint env))⟩)
    ∧ (∀ p ∈ meta0,
        p ∈ meta0 ++ (docs.filter (fun d => !docBad env d)).map
          (fun d => (toString (env.docId d.file_path), d)))
    ∧ (meta0 ++ (docs.filter (fun d => !docBad env d)).map
          (fun d => (toString (env.docId d.file_path), d))).length
        = meta0.length + (docs.filter (fun d => !docBad env d)).length
    ∧ (idx0 ++ (docs.filter (fun d => !docBad env d)).map
          (fun d => (env.docId d.file_path, docVec env d))).length
        = (meta0 ++ (docs.filter (fun d => !docBad env d)).map
            (fun d => (toString (env.docId d.file_path), d))).length := by
  refine ⟨?_, ?_, ?_, ?_⟩
  · rw [index_files_consistent docs env st idx0 meta0 fpj exIds hne hfa hme hfp hcons hkeys,
      index_files_add_spec docs env st idx0 meta0 exIds hne hfresh hndN hndS hfreshS hcount,
      if_neg (by simp [List.isEmpty_iff, hsur])]
  · intro p hp
    exact List.mem_append_left _ hp
  · simp
  · simp [hcount]

/-- Witness for C2: a store already holding batch A (3 documents) receives
batch B (2 new documents with distinct paths); the call succeeds and the
store ends with exactly 5 entries, batch A's entries unchanged. -/
theorem index_files_incremental_witness :
    (([⟨"d.pdf", "dddddd", ["k4"], "s4"⟩, ⟨"e.pdf", "eeeeeee", ["k5"], "s5"⟩] :
        List DocMeta) ≠ []) ∧
    index_files
        [⟨"d.pdf", "dddddd", ["k4"], "s4"⟩, ⟨"e.pdf", "eeeeeee", ["k5"], "s5"⟩]
        ⟨"m", 1, fun _ => [FP.fin 1], fun _ => "F", fun p => p.length⟩
        ⟨some [(3, [FP.fin 1]), (4, [FP.fin 1]), (5, [FP.fin 1])],
         some [("3", ⟨"a.pdf", "aaa", ["k1"], "s1"⟩), ("4", ⟨"b.pdf", "bbbb", ["k2"], "s2"⟩),
               ("5", ⟨"c.pdf", "ccccc", ["k3"], "s3"⟩)],
         some (some "F")⟩ =
      Except.ok ("valid_output", [],
        ⟨some [(3, [FP.fin 1]), (4, [FP.fin 1]), (5, [FP.fin 1]),
               (6, [FP.fin 1]), (7, [FP.fin 1])],
         some [("3", ⟨"a.pdf", "aaa", ["k1"], "s1"⟩), ("4", ⟨"b.pdf", "bbbb", ["k2"], "s2"⟩),
               ("5", ⟨"c.pdf", "ccccc", ["k3"], "s3"⟩),
               ("6", ⟨"d.pdf", "dddddd", ["k4"], "s4"⟩),
               ("7", ⟨"e.pdf", "eeeeeee", ["k5"], "s5"⟩)],
         some (some "F")⟩) ∧
    ([("3", (⟨"a.pdf", "aaa", ["k1"], "s1"⟩ : DocMeta)), ("4", ⟨"b.pdf", "bbbb", ["k2"], "s2"⟩),
      ("5", ⟨"c.pdf", "ccccc", ["k3"], "s3"⟩), ("6", ⟨"d.pdf", "dddddd", ["k4"], "s4"⟩),
      ("7", ⟨"e.pdf", "eeeeeee", ["k5"], "s5"⟩)].length = 5) := by
  refine ⟨by decide, ?_, by decide⟩
  have h := index_files_incremental
    [⟨"d.pdf", "dddddd", ["k4"], "s4"⟩, ⟨"e.pdf", "eeeeeee", ["k5"], "s5"⟩]
    ⟨"m", 1, fun _ => [FP.fin 1], fun _ => "F", fun p => p.length⟩
    ⟨some [(3, [FP.fin 1]), (4, [FP.fin 1]), (5, [FP.fin 1])],
     some [("3", ⟨"a.pdf", "aaa", ["k1"], "s1"⟩), ("4", ⟨"b.pdf", "bbbb", ["k2"], "s2"⟩),
           ("5", ⟨"c.pdf", "ccccc", ["k3"], "s3"⟩)],
     some (some "F")⟩
    [(3, [FP.fin 1]), (4, [FP.fin 1]), (5, [FP.fin 1])]
    [("3", ⟨"a.pdf", "aaa", ["k1"], "s1"⟩), ("4", ⟨"b.pdf", "bbbb", ["k2"], "s2"⟩),
     ("5", ⟨"c.pdf", "ccccc", ["k3"], "s3"⟩)]
    (some "F") [3, 4, 5]
    (by decide) rfl rfl rfl (fun s hs => (Option.some.inj hs).symm) (by decide)
    (by decide) (by decide) (by decide) (by decide) (by decide) (by decide)
  exact h.1

/-- C4 counterexample: the claim says every encoded vector with a
non-finite component is discarded, but the filter only tests `np.isnan` and
`np.allclose(v, 0)`; a vector with an infinity component (non-finite, not
NaN, not close to zero) survives: it is added to the store, is absent from
the invalid list, and the batch reports `valid_output`. -/
theorem index_files_keeps_infinite_vector :
    index_files [⟨"x.pdf", "abc", ["k"], "s"⟩]
        ⟨"m", 2, fun _ => [FP.inf, FP.fin 5], fun _ => "F", fun p => p.length⟩
        ⟨none, none, none⟩ =
      Except.ok ("valid_output", [],
        ⟨some [(3, [FP.inf, FP.fin 5])],
         some [("3", ⟨"x.pdf", "abc", ["k"], "s"⟩)],
         some (some "F")⟩) := by
  decide

/-- C4 (amended): in `index_files`, every encoded vector with a NaN
component or numerically all-zero is discarded; when at least one vector
survives, exactly the surviving vectors are added, each discarded input's
file name is in the invalid list, and the status is `valid_output`; when
zero vectors survive, the status is `no_valid_vectors_error` with all input
file names invalid and no index mutation (first-batch state shown). -/
theorem index_files_degenerate_filtering (docs : List DocMeta) (env : EngineEnv)
    (st : DiskState)
    (hne : docs ≠ [])
    (hmiss : st.faissFile = none ∨ st.metadataFile = none ∨ st.fingerprintFile = none)
    (hndN : (docs.map (fun d => env.docId d.file_path)).Nodup)
    (hndS : (docs.map (fun d => toString (env.docId d.file_path))).Nodup) :
    ((∀ d ∈ docs, docBad env d = true) →
      index_files docs env st =
        Except.ok ("no_valid_vectors_error", docs.map (fun d => d.file_name), st))
    ∧ (docs.filter (fun d => !docBad env d) ≠ [] →
      index_files docs env st =
        Except.ok ("valid_output", (docs.filter (docBad env)).map (fun d => d.file_name),
          ⟨some ((docs.filter (fun d => !docBad env d)).map
              (fun d => (env.docId d.file_path, docVec env d))),
           some ((docs.filter (fun d => !docBad env d)).map
              (fun d => (toString (env.docId d.file_path), d))),
           some (some (get_model_fingerprint env))⟩)) := by
  have hred := index_files_fresh docs env st hne hmiss
  have hspec := index_files_add_spec docs env st [] [] [] hne (by simp) hndN hndS
    (by simp) rfl
  constructor
  · intro hall
    have hemp : docs.filter (fun d => !docBad env d) = [] :=
      List.filter_eq_nil_iff.mpr (fun d hd => by simp [hall d hd])
    rw [hred, hspec, if_pos (by simp [List.isEmpty_iff, hemp])]
  · intro hsur
    rw [hred, hspec, if_neg (by simp [List.isEmpty_iff, hsur])]
    simp

/-- Witness for C4 at the spec's example: one of three canonical texts
encodes to the all-zero vector; 2 entries are added, that one file name is
reported invalid, and the status is `valid_output`. -/
theorem index_files_degenerate_filtering_witness :
    (List.filter (fun d => !docBad
        ⟨"m", 1, fun t => if t = "passage: b -  - s2" then [FP.fin 0] else [FP.fin 1],
         fun _ => "F", fun p => p.length⟩ d)
      [⟨"a.pdf", "a", ["k1"], "s1"⟩, ⟨"b.pdf", "bb", [], "s2"⟩,
       ⟨"c.pdf", "ccc", ["k3"], "s3"⟩] ≠ []) ∧
    index_files
        [⟨"a.pdf", "a", ["k1"], "s1"⟩, ⟨"b.pdf", "bb", [], "s2"⟩,
         ⟨"c.pdf", "ccc", ["k3"], "s3"⟩]
        ⟨"m", 1, fun t => if t = "passage: b -  - s2" then [FP.fin 0] else [FP.fin 1],
         fun _ => "F", fun p => p.length⟩
        ⟨none, none, none⟩ =
      Except.ok ("valid_output", ["b.pdf"],
        ⟨some [(1, [FP.fin 1]), (3, [FP.fin 1])],
         some [("1", ⟨"a.pdf", "a", ["k1"], "s1"⟩), ("3", ⟨"c.pdf", "ccc", ["k3"], "s3"⟩)],
         some (some "F")⟩) := by
  refine ⟨by decide, ?_⟩
  have h := (index_files_degenerate_filtering
    [⟨"a.pdf", "a", ["k1"], "s1"⟩, ⟨"b.pdf", "bb", [], "s2"⟩,
     ⟨"c.pdf", "ccc", ["k3"], "s3"⟩]
    ⟨"m", 1, fun t => if t = "passage: b -  - s2" then [FP.fin 0] else [FP.fin 1],
     fun _ => "F", fun p => p.length⟩
    ⟨none, none, none⟩
    (by decide) (Or.inl rfl) (by decide) (by decide)).2 (by decide)
  rw [h]
  decide

/-- C3: the vector handed to the top-k inner-product search by the search
operation is the encoder applied to the stripped query with the fixed
query-side prefix `"query: "` prepended; that prefix is distinct from the
document-side prefix `"passage: "`, which starts every canonical document
text built at index time. -/
theorem string_prefix_append (a b : String) : List.IsPrefix a.data ((a ++ b) : String).data :=
  ⟨b.data, by rw [← String.data_append]⟩

theorem search_query_prefix (env : EngineEnv) (q : String) :
    search_files_query_vec env q = env.encode ("query: " ++ pyStripStr q)
    ∧ List.IsPrefix "query: ".data (search_files_query_text q).data
    ∧ (∀ md : DocMeta, List.IsPrefix "passage: ".data (build_text_for_embedding md).data)
    ∧ ("query: " : String) ≠ "passage: " := by
  refine ⟨rfl, string_prefix_append "query: " (pyStripStr q), ?_, by decide⟩
  intro md
  exact string_prefix_append "passage: " _

/-- The file name stem as worded by the claim ("the file name without its
extension (the file name stem)"): everything before the last dot, or the
whole name when it has no dot.  Used only for the refinement comparison
with the code's `build_text_for_embedding`. -/
def stem_of (s : String) : String :=
  if '.' ∈ s.data then
    String.mk (((s.data.reverse.dropWhile (fun c => c ≠ '.')).drop 1).reverse)
  else s

/-- The canonical-text formula exactly as the claim words it:
`"passage: " + stem + " - " + ≤5 cleaned keywords + " - " + summary`. -/
def spec_canonical_text (md : DocMeta) : String :=
  "passage: " ++ stem_of md.file_name ++ " - " ++
    String.intercalate ", " (((md.keywords.map pyStripStr).filter (fun kw => kw ≠ "")).take 5)
    ++ " - " ++ md.summary

/-- C7 counterexample: on a multi-dot file name the code keeps only the part
before the FIRST dot (`file_name.split('.')[0]`), not the file name stem;
at `"a.b.pdf"` the code's canonical text and the claim's formula differ. -/
theorem build_text_stem_counterexample :
    build_text_for_embedding ⟨"a.b.pdf", "/x", ["kw"], "sum"⟩ = "passage: a - kw - sum"
    ∧ spec_canonical_text ⟨"a.b.pdf", "/x", ["kw"], "sum"⟩ = "passage: a.b - kw - sum"
    ∧ build_text_for_embedding ⟨"a.b.pdf", "/x", ["kw"], "sum"⟩
        ≠ spec_canonical_text ⟨"a.b.pdf", "/x", ["kw"], "sum"⟩ := by
  refine ⟨by decide, by decide, by decide⟩

theorem pySplitDot_ne_nil : ∀ (l : List Char), pySplitDot l ≠ []
  | [] => by simp [pySplitDot]
  | c :: rest => by
    by_cases hc : c = '.'
    · simp [pySplitDot, hc]
    · have := pySplitDot_ne_nil rest
      rw [pySplitDot, if_neg hc]
      rcases h : pySplitDot rest with _ | ⟨h1, t1⟩
      · exact absurd h this
      · simp

theorem pySplitDot_headD : ∀ (l : List Char),
    (pySplitDot l).headD [] = l.takeWhile (fun c => c ≠ '.')
  | [] => by simp [pySplitDot]
  | c :: rest => by
    by_cases hc : c = '.'
    · simp [pySplitDot, hc, List.takeWhile]
    · have ih := pySplitDot_headD rest
      rw [pySplitDot, if_neg hc]
      rcases h : pySplitDot rest with _ | ⟨h1, t1⟩
      · exact absurd h (pySplitDot_ne_nil rest)
      · rw [h] at ih
        simp only [List.headD_cons] at ih
        simp [List.takeWhile, hc, ih]

theorem take_min_five {α : Type} (l : List α) : l.take (Nat.min l.length 5) = l.take 5 := by
  by_cases h : l.length ≤ 5
  · have hm : Nat.min l.length 5 = l.length := by
      unfold Nat.min
      simp [h]
    rw [hm, List.take_length, List.take_of_length_le h]
  · have hm : Nat.min l.length 5 = 5 := by
      unfold Nat.min
      simp [h]
      omega
    rw [hm]

theorem intercalate_if (kw : List String) :
    (if kw = [] then "" else String.intercalate ", " kw) = String.intercalate ", " kw := by
  by_cases h : kw = []
  · rw [if_pos h, h]
    rfl
  · rw [if_neg h]

/-- C7 (amended): the canonical embedding text equals `"passage: "` ++ the
file name truncated at its FIRST dot ++ `" - "` ++ the at-most-5 cleaned
(stripped, non-empty) keywords joined by `", "` ++ `" - "` ++ the summary;
it is a function of the metadata record alone (file name, keywords,
summary), never of raw document text. -/
theorem build_text_formula (md : DocMeta) :
    build_text_for_embedding md =
      "passage: " ++ String.mk (md.file_name.data.takeWhile (fun c => c ≠ '.')) ++ " - " ++
      String.intercalate ", " (((md.keywords.map pyStripStr).filter (fun kw => kw ≠ "")).take 5)
      ++ " - " ++ md.summary := by
  simp only [build_text_for_embedding, pySplitDot_headD, take_min_five, intercalate_if]

/-! ### Summarization pipeline (`extract_and_summarize.py`) -/

/-- One call to the text-generation collaborator, as seen by
`call_ollama_for_summarization`: either the service responds (with the text
of the `"response"` field) or the call raises at transport level
(`requests.RequestException`) or with some other exception. -/
inductive CallOutcome where
  | ok : String → CallOutcome
  | transportFail : CallOutcome
  | otherFail : CallOutcome
deriving DecidableEq, Repr

/-- `call_ollama_for_summarization`: returns
`result.get("response", "").strip()` on success, and the in-band sentinel
strings `"http_request_error"` / `"unknown_ollama_error"` when the request
raises (the exceptions are caught inside). -/
def call_ollama_for_summarization (o : CallOutcome) : String :=
  match o with
  | CallOutcome.ok response => pyStripStr response
  | CallOutcome.transportFail => "http_request_error"
  | CallOutcome.otherFail => "unknown_ollama_error"

/-- The retry loop of `summarize_file_by_llm`
(`while retry_count < max_retries: ... if llm_output and len(llm_output) >= 100: break`):
`oracle i` is the outcome of the i-th call; returns the final `llm_output`
together with the number of calls performed.  Entered with
`run_llm_calls oracle 0 3`. -/
def run_llm_calls (oracle : Nat → CallOutcome) : Nat → Nat → String × Nat
  | _, 0 => ("", 0)
  | i, remaining + 1 =>
    if call_ollama_for_summarization (oracle i) ≠ "" ∧
        (call_ollama_for_summarization (oracle i)).length ≥ 100 then
      (call_ollama_for_summarization (oracle i), 1)
    else if remaining = 0 then (call_ollama_for_summarization (oracle i), 1)
    else ((run_llm_calls oracle (i + 1) remaining).1,
          (run_llm_calls oracle (i + 1) remaining).2 + 1)

/-- A Python JSON value as produced by `json.loads`. -/
inductive PyJson where
  | str : String → PyJson
  | num : Int → PyJson
  | bool : Bool → PyJson
  | null : PyJson
  | arr : List PyJson → PyJson
  | obj : List (String × PyJson) → PyJson

/-- `re.search(r'\x7b.*\x7d', llm_output, re.DOTALL)` with greedy `.*`: the
match (if any) spans from the first opening brace to the last closing brace
of the whole text, and exists iff some closing brace occurs after the first
opening brace. -/
def extract_json (s : String) : Option String :=
  let l := s.data
  match l.findIdx? (fun c => c = '{'), l.reverse.findIdx? (fun c => c = '}') with
  | some i, some jr =>
    let j := l.length - 1 - jr
    if i < j then some (String.mk ((l.drop i).take (j - i + 1))) else none
  | _, _ => none

/-- Python `info[k]` on a JSON value: `KeyError` when the key is absent from
an object, `TypeError` when `info` is not an object (string subscripting
with a string key also raises `TypeError`). -/
def pyJsonGetItem (j : PyJson) (k : String) : Except String PyJson :=
  match j with
  | PyJson.obj fields =>
    match pyDictGet? fields k with
    | some v => Except.ok v
    | none => Except.error "KeyError"
  | _ => Except.error "TypeError"

/-- Python `.strip()` on a JSON value: only strings have the attribute;
anything else raises `AttributeError`. -/
def pyJsonStrip (j : PyJson) : Except String String :=
  match j with
  | PyJson.str s => Except.ok (pyStripStr s)
  | _ => Except.error "AttributeError"

/-- Python `len()` on a JSON value: defined for strings, lists and objects,
`TypeError` otherwise. -/
def pyJsonLen (j : PyJson) : Except String Nat :=
  match j with
  | PyJson.str s => Except.ok s.length
  | PyJson.arr xs => Except.ok xs.length
  | PyJson.obj fields => Except.ok fields.length
  | _ => Except.error "TypeError"

/-- `summarize_file_by_llm`: run the retry loop, pass through the transport
sentinels, extract the first-to-last-brace span, parse it with `json.loads`
(abstracted as the `jsonParse` parameter, `none` = `json.JSONDecodeError`;
the call sits OUTSIDE the `try` block, so its failure is an uncaught
exception, modelled as `Except.error`), then inside the `try` block read
`summary`/`keywords`, strip the file name out of the summary, and validate
lengths; `KeyError`/`TypeError` are caught and mapped to
`"json_parse_error"`, while an `AttributeError` from `.strip()` on a
non-string propagates. -/
def summarize_file_by_llm (oracle : Nat → CallOutcome)
    (jsonParse : String → Option PyJson) (file_name : String) :
    Except String (String × Option PyJson × Option String) :=
  let r := run_llm_calls oracle 0 3
  let llm_output := r.1
  if llm_output = "http_request_error" ∨ llm_output = "unknown_ollama_error" then
    Except.ok (llm_output, none, none)
  else
    match extract_json llm_output with
    | none => Except.ok ("json_parse_error", none, none)
    | some json_str =>
      match jsonParse json_str with
      | none => Except.error "json.JSONDecodeError"
      | some info =>
        match pyJsonGetItem info "summary" with
        | Except.error _ => Except.ok ("json_parse_error", none, none)
        | Except.ok summary0 =>
          match pyJsonStrip summary0 with
          | Except.error e => Except.error e
          | Except.ok summary1 =>
            match pyJsonGetItem info "keywords" with
            | Except.error _ => Except.ok ("json_parse_error", none, none)
            | Except.ok keywords =>
              let summary2 := pyStripStr (summary1.replace file_name "")
              match pyJsonLen keywords with
              | Except.error _ => Except.ok ("json_parse_error", none, none)
              | Except.ok klen =>
                if summary2.length < 50 ∨ klen < 1 then
                  Except.ok ("invalid_output_error", none, none)
                else
                  Except.ok ("valid_output", some keywords, some summary2)

/-- C5: the code contradicts the claim for an unparsable extracted JSON
span: `json.loads` sits outside the `try` block, so on a 100+-character
response containing the unparsable span `"{oops}"` the call raises an
uncaught `json.JSONDecodeError` instead of returning the status
`json_parse_error` (the missing-object case does return the status, and the
greedy regex spans first-to-last brace rather than the first top-level
object, shown on a two-object response).  `jsonParse` is instantiated with
a parser rejecting `"{oops}"`, as `json.loads` does. -/
theorem summarize_json_decode_error_propagates :
    summarize_file_by_llm
        (fun _ => CallOutcome.ok (String.mk (List.replicate 100 'x') ++ "{oops}"))
        (fun _ => none) "f.pdf" =
      Except.error "json.JSONDecodeError"
    ∧ summarize_file_by_llm
        (fun _ => CallOutcome.ok (String.mk (List.replicate 100 'x')))
        (fun _ => none) "f.pdf" =
      Except.ok ("json_parse_error", none, none)
    ∧ extract_json ((String.mk (List.replicate 100 'x')) ++ "\x7b\"a\": 1\x7d \x7b\"b\": 2\x7d")
      = some "\x7b\"a\": 1\x7d \x7b\"b\": 2\x7d" := by
  refine ⟨rfl, rfl, rfl⟩

/-- C6 counterexample: a call that fails at the transport level IS followed
by another call: the sentinel `"http_request_error"` is 18 characters long,
fails the 100-character floor, and the loop retries, so with a transport
failure on call 0 and a long valid response on call 1 the loop performs 2
calls, not 1. -/
theorem retry_after_transport_failure :
    (run_llm_calls
        (fun i => if i = 0 then CallOutcome.transportFail
          else CallOutcome.ok (String.mk (List.replicate 100 'x'))) 0 3).2 = 2
    ∧ (fun i => if i = 0 then CallOutcome.transportFail
          else CallOutcome.ok (String.mk (List.replicate 100 'x'))) 0
        = CallOutcome.transportFail
    ∧ ("http_request_error" : String).length < 100 := by
  refine ⟨rfl, rfl, by decide⟩

/-- C6 (amended): the retry loop calls the collaborator between 1 and 3
times; the returned raw output is the last call's; every call that is
followed by another one returned an empty or shorter-than-100-character
output (the transport-failure sentinel is such an output, so a transport
failure is retried like any degenerate response rather than aborting the
loop); and the loop stops before the cap only on a long-enough output. -/
theorem llm_retry_spec (oracle : Nat → CallOutcome) :
    1 ≤ (run_llm_calls oracle 0 3).2
    ∧ (run_llm_calls oracle 0 3).2 ≤ 3
    ∧ (run_llm_calls oracle 0 3).1 =
        call_ollama_for_summarization (oracle ((run_llm_calls oracle 0 3).2 - 1))
    ∧ (∀ i, i + 1 < (run_llm_calls oracle 0 3).2 →
        ¬ (call_ollama_for_summarization (oracle i) ≠ "" ∧
           (call_ollama_for_summarization (oracle i)).length ≥ 100))
    ∧ ((run_llm_calls oracle 0 3).2 < 3 →
        call_ollama_for_summarization (oracle ((run_llm_calls oracle 0 3).2 - 1)) ≠ "" ∧
        (call_ollama_for_summarization (oracle ((run_llm_calls oracle 0 3).2 - 1))).length
          ≥ 100) := by
  by_cases h0 : call_ollama_for_summarization (oracle 0) ≠ "" ∧
      (call_ollama_for_summarization (oracle 0)).length ≥ 100
  · have hr : run_llm_calls oracle 0 3 = (call_ollama_for_summarization (oracle 0), 1) := by
      rw [show (3 : Nat) = 2 + 1 from rfl, run_llm_calls, if_pos h0]
    rw [hr]
    refine ⟨le_rfl, by omega, rfl, ?_, fun _ => h0⟩
    intro i hi
    omega
  · by_cases h1 : call_ollama_for_summarization (oracle 1) ≠ "" ∧
        (call_ollama_for_summarization (oracle 1)).length ≥ 100
    · have hr : run_llm_calls oracle 0 3 = (call_ollama_for_summarization (oracle 1), 2) := by
        rw [show (3 : Nat) = 2 + 1 from rfl, run_llm_calls, if_neg h0,
          if_neg (by omega : ¬ (2 : Nat) = 0),
          show (2 : Nat) = 1 + 1 from rfl, run_llm_calls, if_pos h1]
      rw [hr]
      refine ⟨by omega, by omega, rfl, ?_, fun _ => h1⟩
      intro i hi
      have hz : i = 0 := by omega
      rw [hz]
      exact h0
    · have h2r : run_llm_calls oracle 2 1 = (call_ollama_for_summarization (oracle 2), 1) := by
        by_cases hg : call_ollama_for_summarization (oracle 2) ≠ "" ∧
            (call_ollama_for_summarization (oracle 2)).length ≥ 100
        · rw [show (1 : Nat) = 0 + 1 from rfl, run_llm_calls, if_pos hg]
        · rw [show (1 : Nat) = 0 + 1 from rfl, run_llm_calls, if_neg hg, if_pos rfl]
      have h1r : run_llm_calls oracle 1 2 = (call_ollama_for_summarization (oracle 2), 2) := by
        rw [show (2 : Nat) = 1 + 1 from rfl, run_llm_calls, if_neg h1,
          if_neg (by omega : ¬ (1 : Nat) = 0), h2r]
      have hr : run_llm_calls oracle 0 3 = (call_ollama_for_summarization (oracle 2), 3) := by
        rw [show (3 : Nat) = 2 + 1 from rfl, run_llm_calls, if_neg h0,
          if_neg (by omega : ¬ (2 : Nat) = 0), h1r]
      rw [hr]
      refine ⟨by omega, le_rfl, rfl, ?_, by omega⟩
      intro i hi
      have hz : i = 0 ∨ i = 1 := by omega
      rcases hz with h | h
      · rw [h]
        exact h0
      · rw [h]
        exact h1

/-- Witness for C6 at a concrete oracle that always fails at transport
level: the loop performs exactly the 3 capped calls. -/
theorem llm_retry_spec_witness :
    1 ≤ (run_llm_calls (fun _ => CallOutcome.transportFail) 0 3).2
    ∧ (run_llm_calls (fun _ => CallOutcome.transportFail) 0 3).2 = 3 :=
  ⟨(llm_retry_spec (fun _ => CallOutcome.transportFail)).1, by decide⟩

/-- Witness for C3 at a concrete query: the encoded text is the stripped
query with the query-side prefix. -/
theorem search_query_prefix_witness :
    search_files_query_vec ⟨"m", 1, fun _ => [FP.fin 1], fun _ => "F", fun p => p.length⟩
        "  hi " =
      EngineEnv.encode ⟨"m", 1, fun _ => [FP.fin 1], fun _ => "F", fun p => p.length⟩
        ("query: " ++ pyStripStr "  hi ") :=
  ( search_query_prefix ⟨"m", 1, fun _ => [FP.fin 1], fun _ => "F", fun p => p.length⟩
    "  hi ").1

/-- Witness for C7 at a concrete record: first-dot truncation, keyword
cleaning and joining. -/
theorem build_text_formula_witness :
    build_text_for_embedding ⟨"r.v2.pdf", "/p", [" k1 ", "", "k2"], "sum"⟩ =
      "passage: r - k1, k2 - sum" :=
  (build_text_formula ⟨"r.v2.pdf", "/p", [" k1 ", "", "k2"], "sum"⟩).trans (by decide)

/-! ### Text extraction utilities (`parse_doc_utils.py`, `parse_ppt.py`) -/

/-- The character class of the regex `\s` (Python whitespace). -/
def pyIsSpace (c : Char) : Bool := c.isWhitespace

/-- The character class of
`^[\d\s。，！——\.\,\=\-\%\&\^\#\@\!\*\(\)\+\_]+$`: digits, whitespace, and
the listed punctuation (the doubled em dash is one class member). -/
def digits_punct_class (c : Char) : Bool :=
  c.isDigit || pyIsSpace c ||
    ['。', '，', '！', '—', '.', ',', '=', '-', '%', '&', '^', '#', '@', '!', '*',
     '(', ')', '+', '_'].contains c

/-- `re.match(r'^[class]+$', line)`: the whole line is nonempty and consists
only of class characters. -/
def only_digits_punct (l : List Char) : Bool :=
  decide (l ≠ []) && l.all digits_punct_class

/-- The separator class of `[·•\.・\s]{6,}`. -/
def catalog_sep_class (c : Char) : Bool :=
  ['·', '•', '.', '・'].contains c || pyIsSpace c

/-- `re.search(r"[·•\.・\s]{6,}", line)`: some position starts a run of at
least 6 consecutive separator-class characters. -/
def has_sep_run6 : List Char → Bool
  | [] => false
  | c :: rest =>
    (decide (((c :: rest).take 6).length = 6) && ((c :: rest).take 6).all catalog_sep_class)
      || has_sep_run6 rest

/-- The class of `[ixv\d]` under `re.IGNORECASE`. -/
def roman_digit_class (c : Char) : Bool :=
  c.isDigit || ['i', 'x', 'v', 'I', 'X', 'V'].contains c

/-- `re.search(r"[ixv\d]{1,5}$", line, re.IGNORECASE)`: a 1-to-5 character
match ending at the end of the line exists iff the last character is in the
class. -/
def ends_roman_digit (l : List Char) : Bool :=
  match l.getLast? with
  | some c => roman_digit_class c
  | none => false

/-- The tail `(\.\d+)*\s` of the dotted-outline regex, with fuel bounded by
the text length (each group consumes at least the dot). -/
def dotted_groups : Nat → List Char → Bool
  | 0, _ => false
  | _, [] => false
  | fuel + 1, c :: rest =>
    if pyIsSpace c then true
    else if c = '.' then
      decide (rest.takeWhile Char.isDigit ≠ []) &&
        dotted_groups fuel (rest.drop (rest.takeWhile Char.isDigit).length)
    else false

/-- `re.match(r"^\d+(\.\d+)*\s", line)`: a leading digit run, then
dot-separated digit groups, then a whitespace character. -/
def dotted_outline (l : List Char) : Bool :=
  decide (l.takeWhile Char.isDigit ≠ []) &&
    dotted_groups l.length (l.drop (l.takeWhile Char.isDigit).length)

/-- `is_catalog_line`: after stripping, a line of length ≥ 10 is a catalog
line if it has a ≥6-run of separator characters and ends in a short
roman-numeral-or-digit tail, or starts with a dotted numeric outline prefix
followed by whitespace. -/
def is_catalog_line (s : String) : Bool :=
  let l := pyStrip s.data
  if l.length < 10 then false
  else if has_sep_run6 l && ends_roman_digit l then true
  else if dotted_outline l then true
  else false

/-- `re.search` of a prefix matcher: try the matcher at every suffix. -/
def searchP (p : List Char → Bool) : List Char → Bool
  | [] => p []
  | c :: rest => p (c :: rest) || searchP p rest

/-- The core `\s*\d{1,3}\s*页` of the Chinese page-marker pattern (greedy
digits with no helpful backtracking: at a fixed start the match exists iff
the maximal digit run has length 1..3 and is followed, after spaces, by
`页`). -/
def page_cn_core (t : List Char) : Bool :=
  1 ≤ ((t.dropWhile pyIsSpace).takeWhile Char.isDigit).length &&
  ((t.dropWhile pyIsSpace).takeWhile Char.isDigit).length ≤ 3 &&
  (match ((t.dropWhile pyIsSpace).drop
      ((t.dropWhile pyIsSpace).takeWhile Char.isDigit).length).dropWhile pyIsSpace with
   | c :: _ => decide (c = '页')
   | [] => false)

/-- Prefix match of `第?\s*\d{1,3}\s*页` at one position. -/
def page_cn_at (l : List Char) : Bool :=
  (match l with
   | '第' :: t => page_cn_core t
   | _ => false) || page_cn_core l

/-- Prefix match of `Page\s*\d+` at one position, `re.IGNORECASE`. -/
def page_en_at (l : List Char) : Bool :=
  match l with
  | p :: a :: g :: e :: rest =>
    decide (p.toLower = 'p') && decide (a.toLower = 'a') && decide (g.toLower = 'g') &&
    decide (e.toLower = 'e') &&
    decide ((rest.dropWhile pyIsSpace).takeWhile Char.isDigit ≠ [])
  | _ => false

/-- Prefix match of `\d+\s*/\s*\d+` at one position. -/
def fraction_at (l : List Char) : Bool :=
  decide (l.takeWhile Char.isDigit ≠ []) &&
  (match (l.drop (l.takeWhile Char.isDigit).length).dropWhile pyIsSpace with
   | '/' :: r => decide ((r.dropWhile pyIsSpace).takeWhile Char.isDigit ≠ [])
   | _ => false)

/-- Prefix match of a literal pattern (its trailing `.*` always matches)
under `re.IGNORECASE` (ASCII lowering). -/
def literal_at (pat : List Char) (l : List Char) : Bool :=
  (pat.map Char.toLower).isPrefixOf (l.map Char.toLower)

/-- `any(re.search(pat, line, flags=re.IGNORECASE) for pat in
REMOVE_PATTERNS)` with the fixed pattern list: page markers
`第?\s*\d{1,3}\s*页` / `Page\s*\d+` / `\d+\s*/\s*\d+` and the boilerplate
prefixes `版权所有.*` / `保密.*` / `Confidential.*` / `免责声明.*`. -/
def matches_remove_patterns (l : List Char) : Bool :=
  searchP page_cn_at l || searchP page_en_at l || searchP fraction_at l ||
  searchP (literal_at "版权所有".data) l || searchP (literal_at "保密".data) l ||
  searchP (literal_at "Confidential".data) l || searchP (literal_at "免责声明".data) l

/-- `check_line_validity`: strip the line; reject when it is no longer than
`min_line_len`, consists only of digits/whitespace/punctuation, is a
catalog line, or matches a boilerplate removal pattern; keep otherwise. -/
def check_line_validity (line : String) (min_line_len : Nat) : Bool :=
  let l := pyStrip line.data
  if l.length ≤ min_line_len then false
  else if only_digits_punct l then false
  else if is_catalog_line (String.mk l) then false
  else if matches_remove_patterns l then false
  else true

/-- C9: with the default minimum length (2), the line classifier rejects
`"Page 12"` (English page marker), `"第3页"` (Chinese page marker),
`"1/10"` (page fraction) and `"Confidential — internal use only"`
(confidentiality banner), and keeps
`"The quarterly revenue grew by 12% driven by new store openings"`. -/
theorem check_line_validity_literals :
    check_line_validity "Page 12" 2 = false
    ∧ check_line_validity "第3页" 2 = false
    ∧ check_line_validity "1/10" 2 = false
    ∧ check_line_validity "Confidential — internal use only" 2 = false
    ∧ check_line_validity "The quarterly revenue grew by 12% driven by new store openings" 2
        = true := by
  refine ⟨by decide, by decide, by decide, by decide, by decide⟩

/-- One collected paragraph record of `parse_ppt_to_get_headers`:
`{'text': ..., 'top': ..., 'font_size': ...}` (text already cleaned, top is
the shape's vertical position, font size from the first run or the default
10). -/
structure ParaInfo where
  text : String
  top : Int
  font_size : ℚ
deriving DecidableEq, Repr

/-- `re.match(r'^\d+[\.\s]', text)`: one or more digits followed by a dot
or whitespace (backtracking cannot help: fewer digits put a digit where the
class character must be). -/
def numbered_prefix (s : String) : Bool :=
  decide (s.data.takeWhile Char.isDigit ≠ []) &&
  (match s.data.drop (s.data.takeWhile Char.isDigit).length with
   | c :: _ => decide (c = '.') || pyIsSpace c
   | [] => false)

/-- `text.startswith(('• ', '- ', '◦ ', '▪ '))`. -/
def bullet_prefix (s : String) : Bool :=
  "• ".data.isPrefixOf s.data || "- ".data.isPrefixOf s.data ||
  "◦ ".data.isPrefixOf s.data || "▪ ".data.isPrefixOf s.data

/-- The header test of `parse_ppt_to_get_headers` for the item of (0-based)
rank `i` in the sorted list: `if i <= min_header_rank:` header iff the font
size reaches `min_header_fontsize`; `elif` (later ranks only) a numbered
prefix or a bullet glyph makes it a header. -/
def is_header_item (i : Nat) (item : ParaInfo) (min_header_fontsize : ℚ)
    (min_header_rank : Nat) : Bool :=
  if i ≤ min_header_rank then decide (item.font_size ≥ min_header_fontsize)
  else if numbered_prefix item.text then true
  else if bullet_prefix item.text then true
  else false

/-- Stable insertion by `top`: a new element goes after every already
placed element whose `top` is not greater (preserving encounter order on
ties, like Python's stable `list.sort(key=...)`). -/
def insertByTop (x : ParaInfo) : List ParaInfo → List ParaInfo
  | [] => [x]
  | y :: rest => if y.top ≤ x.top then y :: insertByTop x rest else x :: y :: rest

/-- `shape_texts.sort(key=lambda x: x['top'])`: stable ascending sort by
vertical position. -/
def pySortByTop (l : List ParaInfo) : List ParaInfo :=
  l.foldl (fun acc x => insertByTop x acc) []

/-- The per-slide classification stage of `parse_ppt_to_get_headers`: sort
the collected paragraphs by vertical position (stable sort, like Python's
`list.sort`), classify each by rank, and keep the header texts in order. -/
def slide_headers (shape_texts : List ParaInfo) (min_header_fontsize : ℚ)
    (min_header_rank : Nat) : List String :=
  let sorted := pySortByTop shape_texts
  ((sorted.enum).filter
      (fun p => is_header_item p.1 p.2 min_header_fontsize min_header_rank)).map
    (fun p => p.2.text)

/-- C8: a sorted paragraph is classified as a header exactly when its rank
is ≤ `min_header_rank` and its font size is ≥ `min_header_fontsize`, or
(for later-ranked items only) its text starts with a numbered-list prefix
or a fixed bullet glyph; with font sizes `[20,20,10,10,10]` and
`min_header_rank = 3`, `min_header_fontsize = 14`, exactly the first two
paragraphs are headers; and a later-ranked paragraph starting with `"2. "`
is a header regardless of font size. -/
theorem header_classification :
    (∀ (i : Nat) (item : ParaInfo) (fs : ℚ) (rank : Nat),
      is_header_item i item fs rank = true ↔
        ((i ≤ rank ∧ fs ≤ item.font_size) ∨
         (rank < i ∧ ( numbered_prefix item.text = true ∨ bullet_prefix item.text = true))))
    ∧ slide_headers
        [⟨"h1", 0, 20⟩, ⟨"h2", 1, 20⟩, ⟨"b1", 2, 10⟩, ⟨"b2", 3, 10⟩, ⟨"b3", 4, 10⟩] 14 3
      = ["h1", "h2"]
    ∧ (∀ (i : Nat) (top : Int) (fs : ℚ) (rest : String), 3 < i →
        is_header_item i ⟨"2. " ++ rest, top, fs⟩ 14 3 = true) := by
  refine ⟨?_, by decide, ?_⟩
  · intro i item fs rank
    unfold is_header_item
    by_cases h : i ≤ rank
    · rw [if_pos h]
      constructor
      · intro hd
        exact Or.inl ⟨h, by simpa [ge_iff_le] using of_decide_eq_true hd⟩
      · rintro (⟨_, hle⟩ | ⟨hgt, _⟩)
        · simpa [ge_iff_le] using hle
        · omega
    · rw [if_neg h]
      constructor
      · intro hd
        by_cases hn : numbered_prefix item.text
        · exact Or.inr ⟨by omega, Or.inl hn⟩
        · rw [if_neg hn] at hd
          by_cases hb : bullet_prefix item.text
          · exact Or.inr ⟨by omega, Or.inr hb⟩
          · rw [if_neg hb] at hd
            exact absurd hd (by simp)
      · rintro (⟨hle, _⟩ | ⟨_, hn | hb⟩)
        · exact absurd hle h
        · rw [if_pos hn]
        · by_cases hn2 : numbered_prefix item.text
          · rw [if_pos hn2]
          · rw [if_neg hn2, if_pos hb]
  · intro i top fs rest hi
    unfold is_header_item
    rw [if_neg (by omega)]
    have hnum : numbered_prefix ("2. " ++ rest) = true := by
      have hd : ("2. " ++ rest).data = '2' :: '.' :: ' ' :: rest.data := by
        rw [show ("2. " ++ rest).data = "2. ".data ++ rest.data from String.data_append _ _]
        rfl
      unfold numbered_prefix
      rw [hd]
      simp [List.takeWhile]
    rw [if_pos hnum]

/-- Witness for C8 at a concrete later-ranked numbered paragraph with a
small font size. -/
theorem header_classification_witness :
    is_header_item 4 ⟨"2. " ++ "next steps", 5, 10⟩ 14 3 = true :=
  header_classification.2.2 4 5 10 "next steps" (by omega)

/-! ### `clean_whitespace` and its idempotence -/

/-- `c.isascii() and c.isalpha()`: an ASCII letter (codepoint ≤ 127 and
alphabetic). -/
def isAsciiAlpha (c : Char) : Bool := decide (c.toNat ≤ 127) && c.isAlpha

/-- `should_keep_space(s, idx)` of `clean_whitespace`: a non-space
character is always kept; a space is kept iff the ORIGINAL neighbour on
either side is an ASCII letter (Python's `''` sentinel at the ends counts
as not a letter). -/
def should_keep_space (s : List Char) (idx : Nat) : Bool :=
  match s.get? idx with
  | none => false
  | some c =>
    if c ≠ ' ' then true
    else
      ((if idx = 0 then false
        else match s.get? (idx - 1) with
          | some p => isAsciiAlpha p
          | none => false) ||
       (match s.get? (idx + 1) with
        | some n => isAsciiAlpha n
        | none => false))

/-- The generator-expression join of `clean_whitespace`: keep character `c`
at position `i` unless it is a space that `should_keep_space` rejects. -/
def filter_spaces (l : List Char) : List Char :=
  ((l.enum).filter (fun p => decide (p.2 ≠ ' ') || should_keep_space l p.1)).map Prod.snd

/-- `re.sub(r' +', ' ', new_line)`: collapse every run of spaces (U+0020
only) to a single space. -/
def collapse_spaces : List Char → List Char
  | [] => []
  | [c] => [c]
  | a :: b :: rest =>
    if a = ' ' ∧ b = ' ' then collapse_spaces (b :: rest)
    else a :: collapse_spaces (b :: rest)

/-- `clean_whitespace`: strip, delete spaces not adjacent to an ASCII
letter (judged on the stripped original), and collapse space runs. -/
def clean_whitespace (line : String) : String :=
  String.mk (collapse_spaces (filter_spaces (pyStrip line.data)))

/-- Lift of `isAsciiAlpha` to the optional neighbour. -/
def optEng : Option Char → Bool
  | some c => isAsciiAlpha c
  | none => false

/-- Structural reformulation of `filter_spaces`, threading the original
previous character. -/
def filtAux (p : Option Char) : List Char → List Char
  | [] => []
  | c :: rest =>
    if c = ' ' then
      (if optEng p || optEng rest.head? then c :: filtAux (some c) rest
       else filtAux (some c) rest)
    else c :: filtAux (some c) rest

theorem get?_of_drop {α : Type} : ∀ (l : List α) (n : Nat), l.get? n = (l.drop n).head?
  | [], n => by simp
  | c :: rest, 0 => by simp
  | c :: rest, n + 1 => by simp [get?_of_drop rest n]

theorem filter_spaces_eq_aux (l0 : List Char) :
    ∀ (l : List Char) (n : Nat) (p : Option Char), l0.drop n = l →
      p = (if n = 0 then none else l0.get? (n - 1)) →
      ((List.enumFrom n l).filter
          (fun q => decide (q.2 ≠ ' ') || should_keep_space l0 q.1)).map Prod.snd
        = filtAux p l
  | [], n, p, _, _ => by simp [filtAux]
  | c :: rest, n, p, hdrop, hp => by
    have hgn : l0.get? n = some c := by
      rw [get?_of_drop, hdrop]
      rfl
    have hgn1 : l0.get? (n + 1) = rest.head? := by
      rw [get?_of_drop, drop_succ_of_drop l0 n c rest hdrop]
    have hpnext : (some c : Option Char) = (if n + 1 = 0 then none else l0.get? (n + 1 - 1)) := by
      rw [if_neg (Nat.succ_ne_zero n), Nat.add_sub_cancel]
      exact hgn.symm
    have ih := filter_spaces_eq_aux l0 rest (n + 1) (some c)
      (drop_succ_of_drop l0 n c rest hdrop) hpnext
    rw [List.enumFrom_cons]
    by_cases hc : c = ' '
    · subst hc
      have hkeep : (decide ((' ' : Char) ≠ ' ') || should_keep_space l0 n)
          = (optEng p || optEng rest.head?) := by
        rw [hp]
        simp only [should_keep_space, hgn, hgn1]
        by_cases hn : n = 0
        · subst hn
          cases rest.head? <;> simp [optEng]
        · simp only [if_neg hn]
          cases l0.get? (n - 1) <;> cases rest.head? <;> simp [optEng]
      by_cases hk : (optEng p || optEng rest.head?) = true
      · rw [List.filter_cons_of_pos (by
          show (decide ((' ' : Char) ≠ ' ') || should_keep_space l0 n) = true
          rw [hkeep]
          exact hk), List.map_cons, ih]
        rw [filtAux, if_pos rfl, if_pos hk]
      · rw [List.filter_cons_of_neg (by
          show ¬ (decide ((' ' : Char) ≠ ' ') || should_keep_space l0 n) = true
          rw [hkeep]
          exact hk), ih]
        rw [filtAux, if_pos rfl, if_neg hk]
    · rw [List.filter_cons_of_pos (by simp [hc]), List.map_cons, ih]
      rw [filtAux, if_neg hc]

/-- `filter_spaces` agrees with the structural `filtAux`. -/
theorem filter_spaces_eq (l : List Char) : filter_spaces l = filtAux none l := by
  have h := filter_spaces_eq_aux l l 0 none rfl (by rw [if_pos rfl])
  simpa [filter_spaces, List.enum] using h

/-- Every space in the list has an ASCII letter directly on its left
(`p` is the previous character) or directly on its right. -/
def spacesOk : Option Char → List Char → Prop
  | _, [] => True
  | p, c :: rest =>
    (c = ' ' → (optEng p || optEng rest.head?) = true) ∧ spacesOk (some c) rest

/-- No two adjacent spaces. -/
def noDoubleSpace : List Char → Prop
  | a :: b :: rest => ¬(a = ' ' ∧ b = ' ') ∧ noDoubleSpace (b :: rest)
  | _ => True

theorem filtAux_id : ∀ (l : List Char) (p : Option Char), spacesOk p l → filtAux p l = l
  | [], _, _ => rfl
  | c :: rest, p, h => by
    obtain ⟨h1, h2⟩ := h
    by_cases hc : c = ' '
    · subst hc
      rw [filtAux, if_pos rfl, if_pos (h1 rfl), filtAux_id rest (some ' ') h2]
    · rw [filtAux, if_neg hc, filtAux_id rest (some c) h2]

theorem collapse_id : ∀ (l : List Char), noDoubleSpace l → collapse_spaces l = l
  | [], _ => rfl
  | [_], _ => rfl
  | a :: b :: rest, h => by
    obtain ⟨h1, h2⟩ := h
    rw [collapse_spaces, if_neg h1, collapse_id (b :: rest) h2]

theorem head?_dropWhile (P : Char → Bool) : ∀ (l : List Char) (c : Char),
    (l.dropWhile P).head? = some c → P c = false
  | [], c, h => by simp at h
  | x :: rest, c, h => by
    rw [List.dropWhile_cons] at h
    by_cases hx : P x
    · rw [if_pos hx] at h
      exact head?_dropWhile P rest c h
    · rw [if_neg hx] at h
      have hxc : x = c := by simpa using h
      rw [← hxc]
      simpa using hx

theorem getLast?_dropWhile (P : Char → Bool) : ∀ (l : List Char),
    l.dropWhile P ≠ [] → (l.dropWhile P).getLast? = l.getLast?
  | [], h => by simp at h
  | x :: rest, h => by
    rw [List.dropWhile_cons] at h ⊢
    by_cases hx : P x
    · rw [if_pos hx] at h ⊢
      rw [getLast?_dropWhile P rest h]
      have hrne : rest ≠ [] := by
        intro h0
        rw [h0] at h
        simp at h
      cases rest with
      | nil => exact absurd rfl hrne
      | cons y ys => rw [List.getLast?_cons_cons]
    · rw [if_neg hx]

theorem pyStrip_head (l : List Char) (c : Char) :
    (pyStrip l).head? = some c → c.isWhitespace = false := by
  intro h
  unfold pyStrip at h
  rw [List.head?_reverse] at h
  have hne : (l.dropWhile Char.isWhitespace).reverse.dropWhile Char.isWhitespace ≠ [] := by
    intro h0
    rw [h0] at h
    simp at h
  rw [getLast?_dropWhile Char.isWhitespace _ hne, List.getLast?_reverse] at h
  exact head?_dropWhile Char.isWhitespace l c h

theorem pyStrip_getLast (l : List Char) (c : Char) :
    (pyStrip l).getLast? = some c → c.isWhitespace = false := by
  intro h
  unfold pyStrip at h
  rw [List.getLast?_reverse] at h
  exact head?_dropWhile Char.isWhitespace _ c h

theorem pyStrip_id (l : List Char)
    (h1 : ∀ c, l.head? = some c → c.isWhitespace = false)
    (h2 : ∀ c, l.getLast? = some c → c.isWhitespace = false) : pyStrip l = l := by
  cases l with
  | nil => rfl
  | cons x rest =>
    have hx : x.isWhitespace = false := h1 x rfl
    unfold pyStrip
    rw [List.dropWhile_cons, if_neg (by simp [hx])]
    rcases hz : (x :: rest).getLast? with _ | z
    · simp at hz
    · have hzws := h2 z hz
      have hr : ((x :: rest).reverse).head? = some z := by
        rw [List.head?_reverse]
        exact hz
      cases hrev : (x :: rest).reverse with
      | nil => simp [hrev] at hr
      | cons w ws2 =>
        rw [hrev] at hr
        have hwz : w = z := by simpa using hr
        have hdw : List.dropWhile Char.isWhitespace (w :: ws2) = w :: ws2 := by
          rw [List.dropWhile_cons, if_neg (by simp [hwz, hzws])]
        rw [hdw, ← hrev, List.reverse_reverse]

theorem filtAux_spacesOk : ∀ (l : List Char) (p pe : Option Char),
    (∀ c, p = some c → isAsciiAlpha c = true → pe = p) → spacesOk pe (filtAux p l)
  | [], _, _, _ => trivial
  | c :: rest, p, pe, hcompat => by
    by_cases hc : c = ' '
    · subst hc
      rw [filtAux, if_pos rfl]
      by_cases hk : (optEng p || optEng rest.head?) = true
      · rw [if_pos hk]
        refine ⟨fun _ => ?_,
          filtAux_spacesOk rest (some ' ') (some ' ') (fun _ _ _ => rfl)⟩
        have hk2 : optEng p = true ∨ optEng rest.head? = true := by simpa using hk
        rcases hk2 with hp | hn
        · cases p with
          | none => simp [optEng] at hp
          | some q =>
            have hq : isAsciiAlpha q = true := by simpa [optEng] using hp
            rw [hcompat q rfl hq]
            simp [optEng, hq]
        · cases rest with
          | nil => simp [optEng] at hn
          | cons d rest2 =>
            have hd : isAsciiAlpha d = true := by simpa [optEng] using hn
            have hdne : d ≠ ' ' := by
              intro h0
              rw [h0] at hd
              exact absurd hd (by decide)
            rw [filtAux, if_neg hdne]
            simp [optEng, hd]
      · rw [if_neg hk]
        refine filtAux_spacesOk rest (some ' ') pe (fun c h1 h2 => ?_)
        have hcs : c = ' ' := by
          injection h1.symm
        rw [hcs] at h2
        exact absurd h2 (by decide)
    · rw [filtAux, if_neg hc]
      exact ⟨fun h0 => absurd h0 hc,
        filtAux_spacesOk rest (some c) (some c) (fun _ _ _ => rfl)⟩

theorem collapse_head : ∀ (b : Char) (r : List Char),
    (collapse_spaces (b :: r)).head? = some b
  | _, [] => rfl
  | b, c :: r2 => by
    rw [collapse_spaces]
    by_cases h : b = ' ' ∧ c = ' '
    · rw [if_pos h, collapse_head c r2, h.1, h.2]
    · rw [if_neg h]
      rfl

theorem collapse_spacesOk : ∀ (l : List Char) (p : Option Char),
    spacesOk p l → spacesOk p (collapse_spaces l)
  | [], _, _ => trivial
  | [c], p, h => by
    simpa [collapse_spaces] using h
  | a :: b :: rest, p, h => by
    obtain ⟨h1, h2⟩ := h
    obtain ⟨h21, h22⟩ := h2
    rw [collapse_spaces]
    by_cases hab : a = ' ' ∧ b = ' '
    · rw [if_pos hab]
      apply collapse_spacesOk (b :: rest) p
      refine ⟨fun _ => ?_, h22⟩
      have hr := h21 hab.2
      rw [hab.1] at hr
      have hro : optEng rest.head? = true := by
        simpa [optEng, isAsciiAlpha] using hr
      rw [hro]
      simp
    · rw [if_neg hab]
      refine ⟨fun ha => ?_, collapse_spacesOk (b :: rest) (some a) ⟨h21, h22⟩⟩
      rw [collapse_head b rest]
      exact h1 ha

theorem collapse_noDouble : ∀ (l : List Char), noDoubleSpace (collapse_spaces l)
  | [] => trivial
  | [_] => trivial
  | a :: b :: rest => by
    rw [collapse_spaces]
    by_cases hab : a = ' ' ∧ b = ' '
    · rw [if_pos hab]
      exact collapse_noDouble (b :: rest)
    · rw [if_neg hab]
      have hh := collapse_head b rest
      cases hcb : collapse_spaces (b :: rest) with
      | nil =>
        rw [hcb] at hh
        simp at hh
      | cons w t =>
        rw [hcb] at hh
        have hw : w = b := by simpa using hh
        have hrec := collapse_noDouble (b :: rest)
        rw [hcb] at hrec
        refine ⟨?_, hrec⟩
        rw [hw]
        exact hab

theorem filtAux_getLast : ∀ (l : List Char) (p : Option Char) (z : Char),
    l.getLast? = some z → z ≠ ' ' → (filtAux p l).getLast? = some z
  | [], _, z, h, _ => by simp at h
  | c :: rest, p, z, h, hz => by
    cases rest with
    | nil =>
      have hcz : c = z := by simpa using h
      subst hcz
      rw [filtAux, if_neg hz]
      rfl
    | cons d rest2 =>
      have htail : (d :: rest2).getLast? = some z := by
        rw [List.getLast?_cons_cons] at h
        exact h
      have ih := filtAux_getLast (d :: rest2) (some c) z htail hz
      have hne : filtAux (some c) (d :: rest2) ≠ [] := by
        intro h0
        rw [h0] at ih
        simp at ih
      by_cases hc : c = ' '
      · subst hc
        rw [filtAux, if_pos rfl]
        by_cases hk : (optEng p || optEng (d :: rest2).head?) = true
        · rw [if_pos hk]
          cases hfa : filtAux (some ' ') (d :: rest2) with
          | nil => exact absurd hfa hne
          | cons w t =>
            rw [hfa] at ih
            rw [List.getLast?_cons_cons]
            exact ih
        · rw [if_neg hk]
          exact ih
      · rw [filtAux, if_neg hc]
        cases hfa : filtAux (some c) (d :: rest2) with
        | nil => exact absurd hfa hne
        | cons w t =>
          rw [hfa] at ih
          rw [List.getLast?_cons_cons]
          exact ih

theorem collapse_getLast : ∀ (l : List Char) (z : Char),
    l.getLast? = some z → z ≠ ' ' → (collapse_spaces l).getLast? = some z
  | [], z, h, _ => by simp at h
  | [c], z, h, _ => by simpa [collapse_spaces] using h
  | a :: b :: rest, z, h, hz => by
    have htail : (b :: rest).getLast? = some z := by
      rw [List.getLast?_cons_cons] at h
      exact h
    have ih := collapse_getLast (b :: rest) z htail hz
    rw [collapse_spaces]
    by_cases hab : a = ' ' ∧ b = ' '
    · rw [if_pos hab]
      exact ih
    · rw [if_neg hab]
      have hne : collapse_spaces (b :: rest) ≠ [] := by
        intro h0
        rw [h0] at ih
        simp at ih
      cases hcb : collapse_spaces (b :: rest) with
      | nil => exact absurd hcb hne
      | cons w t =>
        rw [hcb] at ih
        rw [List.getLast?_cons_cons]
        exact ih

theorem clean_core_idem (l : List Char) :
    collapse_spaces (filter_spaces (pyStrip (collapse_spaces (filter_spaces (pyStrip l)))))
      = collapse_spaces (filter_spaces (pyStrip l)) := by
  rw [filter_spaces_eq (pyStrip l)]
  set T : List Char := collapse_spaces (filtAux none (pyStrip l)) with hT
  have hsOk : spacesOk none T :=
    collapse_spacesOk _ none
      (filtAux_spacesOk (pyStrip l) none none (fun c h1 _ => Option.noConfusion h1))
  have hnd : noDoubleSpace T := collapse_noDouble _
  cases hY : pyStrip l with
  | nil =>
    rw [hY] at hT
    have hTnil : T = [] := by
      rw [hT]
      rfl
    rw [hTnil]
    rfl
  | cons c Y2 =>
    have hc_ws : c.isWhitespace = false := pyStrip_head l c (by rw [hY]; rfl)
    have hcne : c ≠ ' ' := by
      intro h0
      rw [h0] at hc_ws
      exact absurd hc_ws (by decide)
    have hF : filtAux none (pyStrip l) = c :: filtAux (some c) Y2 := by
      rw [hY, filtAux, if_neg hcne]
    have hThead : T.head? = some c := by
      rw [hT, hF]
      exact collapse_head c _
    rcases hz0 : (c :: Y2).getLast? with _ | z
    · simp at hz0
    · have hzws : z.isWhitespace = false := pyStrip_getLast l z (by rw [hY]; exact hz0)
      have hzne : z ≠ ' ' := by
        intro h0
        rw [h0] at hzws
        exact absurd hzws (by decide)
      have hFlast : (filtAux none (pyStrip l)).getLast? = some z := by
        rw [hY]
        exact filtAux_getLast (c :: Y2) none z hz0 hzne
      have hTlast : T.getLast? = some z := by
        rw [hT]
        exact collapse_getLast _ z hFlast hzne
      have hstrip : pyStrip T = T := by
        refine pyStrip_id T (fun d hd => ?_) (fun d hd => ?_)
        · rw [hThead] at hd
          have hdc : c = d := Option.some.inj hd
          rw [← hdc]
          exact hc_ws
        · rw [hTlast] at hd
          have hdz : z = d := Option.some.inj hd
          rw [← hdz]
          exact hzws
      rw [hstrip, filter_spaces_eq T, filtAux_id T none hsOk, collapse_id T hnd]

/-- C10: the whitespace normalizer is idempotent — one application already
yields a string with no double spaces, every remaining space adjacent to an
ASCII letter, and no leading or trailing whitespace, so a second
application changes nothing. -/
theorem clean_whitespace_idempotent (s : String) :
    clean_whitespace (clean_whitespace s) = clean_whitespace s
    ∧ noDoubleSpace (clean_whitespace s).data
    ∧ spacesOk none (clean_whitespace s).data
    ∧ (∀ c, (clean_whitespace s).data.head? = some c → c.isWhitespace = false)
    ∧ (∀ c, (clean_whitespace s).data.getLast? = some c → c.isWhitespace = false) := by
  have hdata : (clean_whitespace s).data
      = collapse_spaces (filter_spaces (pyStrip s.data)) := rfl
  refine ⟨?_, ?_, ?_, ?_, ?_⟩
  · show String.mk (collapse_spaces (filter_spaces (pyStrip (clean_whitespace s).data)))
      = String.mk (collapse_spaces (filter_spaces (pyStrip s.data)))
    rw [hdata]
    exact congrArg String.mk (clean_core_idem s.data)
  · rw [hdata]
    exact collapse_noDouble _
  · rw [hdata, filter_spaces_eq]
    exact collapse_spacesOk _ none
      (filtAux_spacesOk (pyStrip s.data) none none (fun c h1 _ => Option.noConfusion h1))
  · intro c hc
    rw [hdata, filter_spaces_eq] at hc
    cases hY : pyStrip s.data with
    | nil =>
      rw [hY] at hc
      simp [filtAux, collapse_spaces] at hc
    | cons x Y2 =>
      have hx_ws : x.isWhitespace = false := pyStrip_head s.data x (by rw [hY]; rfl)
      have hxne : x ≠ ' ' := by
        intro h0
        rw [h0] at hx_ws
        exact absurd hx_ws (by decide)
      rw [hY, filtAux, if_neg hxne, collapse_head x _] at hc
      have hxc : x = c := Option.some.inj hc
      rw [← hxc]
      exact hx_ws
  · intro c hc
    rw [hdata, filter_spaces_eq] at hc
    cases hY : pyStrip s.data with
    | nil =>
      rw [hY] at hc
      simp [filtAux, collapse_spaces] at hc
    | cons x Y2 =>
      rcases hz0 : (x :: Y2).getLast? with _ | z
      · simp at hz0
      · have hzws : z.isWhitespace = false := pyStrip_getLast s.data z (by rw [hY]; exact hz0)
        have hzne : z ≠ ' ' := by
          intro h0
          rw [h0] at hzws
          exact absurd hzws (by decide)
        rw [hY, collapse_getLast _ z (filtAux_getLast (x :: Y2) none z hz0 hzne) hzne] at hc
        have hzc : z = c := Option.some.inj hc
        rw [← hzc]
        exact hzws

/-- Witness for C10 at a concrete mixed Latin/CJK string. -/
theorem clean_whitespace_idempotent_witness :
    clean_whitespace (clean_whitespace "  a  b   中 文  ") = clean_whitespace "  a  b   中 文  " :=
  (clean_whitespace_idempotent "  a  b   中 文  ").1

end Mnemo
